import Mathlib

/-!
A verification development for the semantic memory subsystem of the
memory-agent service (`memory_agent/store.py`, `memory_agent/extractor.py`,
`memory_agent/listener.py`, `memory_agent/embeddings.py`).

The Python code is shallowly embedded:
* float scalars are modelled as exact rationals (`ℚ`) where they are data
  (timestamps, embedding components) and as real numbers (`ℝ`) where they are
  derived quantities (norms, similarities, relevance scores), since the score
  formula uses `exp`, `log` and `sqrt`;
* the SQLite `memories` table is a list of rows in rowid order; the
  `memory_vec` virtual index is derived from the rows (the code keeps the two
  in sync on every write);
* Python's stable `list.sort` is modelled by `List.insertionSort`, which is
  stable in exactly the same sense;
* external calls (the embedding provider, the gate/extractor LLMs, the CCC
  gateway) are oracle parameters: the functions receive the external answer
  as an argument;
* each call takes the current wall-clock time `now` as an explicit parameter
  (the code reads `time.time()` several times inside one call; the model uses
  a single instant per call).
-/

open scoped List

namespace MemoryAgent

/-! ## Embeddings (`embeddings.py`)

An embedding is a vector of float components, modelled as exact rationals.
Norms, dot products and cosine similarities live in `ℝ`.
-/

/-- An embedding vector: the float components of a `numpy` array. -/
abbrev Vec := List ℚ

/-- `np.dot a b`: the dot product of two vectors (componentwise, truncating
at the shorter length like `zipWith`; real embeddings share one dimension). -/
noncomputable def vdot (a b : Vec) : ℝ :=
  (List.zipWith (fun (x y : ℚ) => ((x : ℝ)) * ((y : ℝ))) a b).sum

/-- `np.linalg.norm v`: the Euclidean norm of a vector. -/
noncomputable def vnorm (v : Vec) : ℝ :=
  Real.sqrt ((v.map (fun x : ℚ => ((x : ℝ)) ^ 2)).sum)

/-- One row of `batch_cosine_similarity(query, matrix)` from `embeddings.py`:
similarity of `row` to `query`, with the code's two zero-norm guards
(`query_norm == 0` yields `0`, a zero row norm is replaced by `1`). -/
noncomputable def batch_cosine_row (query row : Vec) : ℝ :=
  if vnorm query = 0 then 0
  else vdot row query / ((if vnorm row = 0 then 1 else vnorm row) * vnorm query)

/-- The cosine distance computed by the sqlite-vec index
(`vec0(... distance_metric=cosine)`), an external component: the
mathematical contract `1 - cos(a, b)` (with `x / 0 = 0` in the degenerate
zero-norm case, where the index value is unspecified anyway). -/
noncomputable def vec_cosine_distance (a b : Vec) : ℝ :=
  1 - vdot a b / (vnorm a * vnorm b)

/-! ## The memory store (`store.py`) -/

/-- A row of the `memories` table (dataclass `Memory` in `store.py`), with its
`embedding` column carried alongside. -/
structure Memory where
  id : ℤ
  content : String
  importance : ℤ
  memory_type : String
  topic_tags : List String
  source_session : String
  created_at : ℚ
  last_accessed : Option ℚ
  access_count : ℕ
  embedding : Vec
deriving DecidableEq, Repr

/-- The `memories` table: rows in rowid order. -/
abbrev Store := List Memory

/-- `SearchResult` from `store.py`: a memory with combined score and raw
cosine similarity. -/
structure SearchResult where
  memory : Memory
  score : ℝ
  similarity : ℝ

/-- `max(1, min(5, importance))`, the clamp applied on `store` and `update`. -/
def clampImportance (i : ℤ) : ℤ := max 1 (min 5 i)

/-- `MemoryStore._compute_score`: similarity blended with importance,
recency (120-day-half-life exponential decay toward 0.5) and access-count
factors.  `now` is the `time.time()` instant of the call. -/
noncomputable def compute_score (now : ℚ) (similarity : ℝ) (memory : Memory) : ℝ :=
  let importance_factor : ℝ := 0.80 + (memory.importance : ℝ) * 0.08
  let age_days : ℝ := ((now : ℝ) - (memory.created_at : ℝ)) / 86400
  let recency_factor : ℝ := 0.5 + 0.5 * Real.exp (-age_days / 120)
  let access_factor : ℝ := 1.0 + min 0.15 (Real.log (1 + (memory.access_count : ℝ)) * 0.04)
  similarity * importance_factor * recency_factor * access_factor

/-- The SQL `memory_type = ?` clause of `_search_numpy`, which both search
paths add only when `memory_type` is truthy (neither `None` nor `""`).  The
vec path's `if memory_type and mem.memory_type != memory_type: continue`
has the same semantics. -/
def typeMatches (memory_type : Option String) (m : Memory) : Bool :=
  match memory_type with
  | none => true
  | some t => if t = "" then true else m.memory_type == t

/-- The ordering used to model `results.sort(key=lambda r: r.score,
reverse=True)`: descending by score.  `insertionSort` with this relation is
stable exactly like Python's sort. -/
def byScoreDesc (a b : SearchResult) : Prop := b.score ≤ a.score

noncomputable instance : DecidableRel byScoreDesc :=
  fun a b => inferInstanceAs (Decidable (b.score ≤ a.score))

instance : IsTotal SearchResult byScoreDesc := ⟨fun a b => le_total b.score a.score⟩

instance : IsTrans SearchResult byScoreDesc := ⟨fun _ _ _ h h' => le_trans h' h⟩

/-- The `ORDER BY v.distance` of the vec KNN query: ascending by distance. -/
def byDistAsc (a b : ℤ × ℝ) : Prop := a.2 ≤ b.2

noncomputable instance : DecidableRel byDistAsc :=
  fun a b => inferInstanceAs (Decidable (a.2 ≤ b.2))

instance : IsTotal (ℤ × ℝ) byDistAsc := ⟨fun a b => le_total a.2 b.2⟩

instance : IsTrans (ℤ × ℝ) byDistAsc := ⟨fun _ _ _ h h' => le_trans h h'⟩

/-- The row-level effect of `UPDATE memories SET last_accessed = ?,
access_count = access_count + 1 WHERE id = ?`. -/
def bump_access (now : ℚ) (m : Memory) : Memory :=
  { m with last_accessed := some now, access_count := m.access_count + 1 }

/-- The access-count update loop shared by both search paths: one `UPDATE`
statement per returned result. -/
def applyAccessUpdates (now : ℚ) (taken : List SearchResult) (S : Store) : Store :=
  taken.foldl
    (fun acc r => acc.map fun m => if m.id = r.memory.id then bump_access now m else m)
    S

/-- `MemoryStore._search_numpy`: the fallback linear-scan search.  Returns the
result list together with the store rows after the access-count updates. -/
noncomputable def search_numpy (S : Store) (now : ℚ) (query_embedding : Vec)
    (limit : ℕ) (threshold : ℝ) (memory_type : Option String)
    (min_importance : ℤ) (exclude_ids : List ℤ) :
    List SearchResult × Store :=
  let rows := S.filter fun m =>
    decide (min_importance ≤ m.importance) && typeMatches memory_type m
  if rows = [] then ([], S)
  else
    let memories := rows.filter fun m => !(exclude_ids.contains m.id)
    if memories = [] then ([], S)
    else
      let results := memories.filterMap fun m =>
        let sim := batch_cosine_row query_embedding m.embedding
        let score := compute_score now sim m
        if threshold ≤ score then some ⟨m, score, sim⟩ else none
      let sorted := List.insertionSort byScoreDesc results
      let taken := sorted.take limit
      (taken, applyAccessUpdates now taken S)

/-- `MemoryStore._search_vec`: the sqlite-vec accelerated search.  The KNN
query fetches at most `max(limit * 5, 50)` nearest index entries before any
metadata filtering. -/
noncomputable def search_vec (S : Store) (now : ℚ) (query_embedding : Vec)
    (limit : ℕ) (threshold : ℝ) (memory_type : Option String)
    (min_importance : ℤ) (exclude_ids : List ℤ) :
    List SearchResult × Store :=
  let fetch_limit := max (limit * 5) 50
  let vec_entries := S.map fun m => (m.id, vec_cosine_distance query_embedding m.embedding)
  let vec_rows := (List.insertionSort byDistAsc vec_entries).take fetch_limit
  if vec_rows.isEmpty then ([], S)
  else
    let candidate_ids := vec_rows.map Prod.fst
    let mem_rows := S.filter fun m => candidate_ids.contains m.id
    let results := mem_rows.filterMap fun m =>
      if exclude_ids.contains m.id then none
      else if !typeMatches memory_type m then none
      else if m.importance < min_importance then none
      else
        let cosine_distance := ((vec_rows.find? fun e => e.1 == m.id).map Prod.snd).getD 1
        let sim := 1 - cosine_distance
        let score := compute_score now sim m
        if threshold ≤ score then some ⟨m, score, sim⟩ else none
    let sorted := List.insertionSort byScoreDesc results
    let taken := sorted.take limit
    (taken, applyAccessUpdates now taken S)

/-- The filter/score/rank/limit logic common to both search paths, written
over the raw row list: a proof device used to show that `_search_vec` and
`_search_numpy` agree whenever the KNN window covers the whole store. -/
noncomputable def search_core (S : Store) (now : ℚ) (query_embedding : Vec)
    (limit : ℕ) (threshold : ℝ) (memory_type : Option String)
    (min_importance : ℤ) (exclude_ids : List ℤ) :
    List SearchResult × Store :=
  let results := ((S.filter fun m =>
      decide (min_importance ≤ m.importance) && typeMatches memory_type m).filter
        fun m => !(exclude_ids.contains m.id)).filterMap fun m =>
    let sim := batch_cosine_row query_embedding m.embedding
    let score := compute_score now sim m
    if threshold ≤ score then some ⟨m, score, sim⟩ else none
  let taken := (List.insertionSort byScoreDesc results).take limit
  (taken, applyAccessUpdates now taken S)

/-- `MemoryStore.search` after the query has been embedded: dispatch on
`self.use_vec`. -/
noncomputable def search_op (use_vec : Bool) (S : Store) (now : ℚ)
    (query_embedding : Vec) (limit : ℕ) (threshold : ℝ)
    (memory_type : Option String) (min_importance : ℤ) (exclude_ids : List ℤ) :
    List SearchResult × Store :=
  if use_vec then
    search_vec S now query_embedding limit threshold memory_type min_importance exclude_ids
  else
    search_numpy S now query_embedding limit threshold memory_type min_importance exclude_ids

/-- `MemoryStore.find_duplicates`: `search(content, limit=3,
threshold=threshold)` with the remaining search arguments at their defaults.
`content_embedding` is the embedding of `content` under the `search_query`
usage prefix (computed inside `search`). -/
noncomputable def find_duplicates (use_vec : Bool) (S : Store) (now : ℚ)
    (content_embedding : Vec) (threshold : ℝ) : List SearchResult × Store :=
  search_op use_vec S now content_embedding 3 threshold none 1 []

/-- `MemoryStore.get`: `SELECT ... WHERE id = ?` (no side effects). -/
def get_memory (S : Store) (memory_id : ℤ) : Option Memory :=
  S.find? fun m => m.id == memory_id

/-- `MemoryStore.store`: append a new row with the next rowid and a fresh
embedding of `content`.  `emb` is the embedding provider under the
`search_document` usage prefix. -/
def store_new (emb : String → Vec) (S : Store) (now : ℚ) (content : String)
    (importance : ℤ) (memory_type : String) (topic_tags : List String)
    (source_session : String) : ℤ × Store :=
  let memory_id := (S.map Memory.id).foldr max 0 + 1
  (memory_id,
    S ++ [{ id := memory_id, content := content,
            importance := clampImportance importance,
            memory_type := memory_type, topic_tags := topic_tags,
            source_session := source_session, created_at := now,
            last_accessed := none, access_count := 0,
            embedding := emb content }])

/-- `MemoryStore.update`: partial update of content / importance /
topic_tags.  Returns `false` (and changes nothing) when the id is unknown or
the computed field list is empty; `content` enters the field list only when
it differs from the current content, and then the embedding is regenerated. -/
def update_op (emb : String → Vec) (S : Store) (memory_id : ℤ)
    (content : Option String) (importance : Option ℤ)
    (topic_tags : Option (List String)) : Bool × Store :=
  match get_memory S memory_id with
  | none => (false, S)
  | some memory =>
    let set_content : Bool :=
      match content with
      | some c => c != memory.content
      | none => false
    if !set_content && importance.isNone && topic_tags.isNone then (false, S)
    else
      let apply_updates : Memory → Memory := fun m =>
        let m := if set_content then
            { m with content := content.getD m.content,
                     embedding := emb (content.getD m.content) }
          else m
        let m := match importance with
          | some i => { m with importance := clampImportance i }
          | none => m
        match topic_tags with
        | some t => { m with topic_tags := t }
        | none => m
      (true, S.map fun m => if m.id = memory_id then apply_updates m else m)

/-- A row of the `memory_links` table.  The schema has no uniqueness
constraint on the triple — only the two `REFERENCES memories(id)` foreign
keys (enforced, since every connection runs `PRAGMA foreign_keys=ON`). -/
structure MemoryLink where
  from_id : ℤ
  to_id : ℤ
  relationship : String
deriving DecidableEq, Repr

/-- `MemoryStore.link`: plain `INSERT INTO memory_links`; the only
`IntegrityError` the schema can raise is a foreign-key violation, which the
code converts to `False` with no insertion. -/
def link_op (S : Store) (links : List MemoryLink) (from_id to_id : ℤ)
    (relationship : String) : Bool × List MemoryLink :=
  if (get_memory S from_id).isSome && (get_memory S to_id).isSome then
    (true, links ++ [{ from_id := from_id, to_id := to_id, relationship := relationship }])
  else
    (false, links)

/-! ## The extraction pipeline (`extractor.py`)

The two LLM calls (gate and extractor) are external; the model receives the
gate verdict and the decoded JSON array as oracle inputs and embeds the
parsing/commit logic that follows them.
-/

/-- A JSON scalar as it can appear in a decoded extractor response. -/
inductive JVal where
  | jnum (n : ℤ)
  | jstr (s : String)
  | jbool (b : Bool)
  | jnull
deriving DecidableEq, Repr

/-- Python truthiness of a JSON scalar (`item.get("memory_id") or ...`). -/
def JVal.truthy : JVal → Bool
  | .jnum n => n != 0
  | .jstr s => s != ""
  | .jbool b => b
  | .jnull => false

/-- Python `int(v)` on a JSON scalar: `none` models the `ValueError` /
`TypeError` raised on a non-numeric string or `null`. -/
def JVal.asInt : JVal → Option ℤ
  | .jnum n => some n
  | .jstr s => s.trim.toInt?
  | .jbool b => some (if b then 1 else 0)
  | .jnull => none

/-- One decoded element of the extractor's JSON array.  A non-dict element is
skipped by the code exactly like a dict without a `"content"` key, so it is
represented by `content := none`. -/
structure ExtractItem where
  op : Option String := none
  content : Option String := none
  importance : Option JVal := none
  memory_id : Option JVal := none
  target_id : Option JVal := none
  memory_type : Option String := none
  topic_tags : Option (List String) := none
deriving DecidableEq, Repr

/-- `MemoryOp` from `extractor.py`. -/
structure MemoryOp where
  op : String
  content : String
  importance : ℤ
  memory_type : String
  topic_tags : List String
  target_id : Option ℤ := none
deriving DecidableEq, Repr

/-- `item.get("memory_id") or item.get("target_id")`: Python's truthiness
chain over the two possible id keys. -/
def pick_target (item : ExtractItem) : Option JVal :=
  match item.memory_id with
  | some v => if v.truthy then some v else item.target_id
  | none => item.target_id

/-- Target-id resolution for an operation: an `update` whose picked id is
absent or fails `int(...)` is downgraded to `create` with no target. -/
def resolve_op (op_type : String) (picked : Option JVal) : String × Option ℤ :=
  if op_type = "update" then
    match picked with
    | none => ("create", none)
    | some v =>
      match v.asInt with
      | none => ("create", none)
      | some n => ("update", some n)
  else (op_type, none)

/-- `int(item.get("importance", 3))`: `none` models the raised
`ValueError`/`TypeError`. -/
def parse_importance (item : ExtractItem) : Option ℤ :=
  match item.importance with
  | none => some 3
  | some v => v.asInt

/-- The body of the parsing loop in `extract` for one item.
`none` models an exception escaping to the outer `except` (aborting the
loop); `some none` a `continue`; `some (some op)` an appended operation. -/
def parse_item (item : ExtractItem) : Option (Option MemoryOp) :=
  match item.content with
  | none => some none
  | some content =>
    let op_type := item.op.getD "create"
    let op_type := if op_type = "create" ∨ op_type = "update" then op_type else "create"
    let resolved := resolve_op op_type (pick_target item)
    match parse_importance item with
    | none => none
    | some imp =>
      some (some
        { op := resolved.1, content := content,
          importance := clampImportance imp,
          memory_type := item.memory_type.getD "general",
          topic_tags := item.topic_tags.getD [],
          target_id := resolved.2 })

/-- The parsing loop of `extract` over the decoded array: ops accumulated in
order; an exception returns the ops collected so far. -/
def extract_ops : List ExtractItem → List MemoryOp
  | [] => []
  | item :: rest =>
    match parse_item item with
    | none => []
    | some none => extract_ops rest
    | some (some o) => o :: extract_ops rest

/-- The running counters of `ExtractionPipeline`. -/
structure PipelineStats where
  chunks_processed : ℕ
  chunks_passed_gate : ℕ
  memories_extracted : ℕ
  memories_stored : ℕ
  memories_updated : ℕ
  memories_deduped : ℕ
deriving DecidableEq, Repr

/-- The zeroed counters a fresh `ExtractionPipeline` starts with. -/
def initial_stats : PipelineStats :=
  { chunks_processed := 0, chunks_passed_gate := 0, memories_extracted := 0,
    memories_stored := 0, memories_updated := 0, memories_deduped := 0 }

/-- The commit-loop accumulator: store rows, counters, collected result ids. -/
abbrev CommitState := Store × PipelineStats × List ℤ

/-- The create path of the commit loop in `process_chunk`: dedup check via
`find_duplicates` (whose search bumps access counts of its hits), then either
count a dedup or store a new memory.  `emb_doc` / `emb_query` are the
embedding provider under the `search_document` / `search_query` prefixes. -/
noncomputable def create_path (use_vec : Bool) (emb_doc emb_query : String → Vec)
    (dedup_threshold : ℝ) (source_session : String) (now : ℚ)
    (acc : CommitState) (op : MemoryOp) : CommitState :=
  let (S, stats, ids) := acc
  let dup := find_duplicates use_vec S now (emb_query op.content) dedup_threshold
  if !dup.1.isEmpty then
    (dup.2, { stats with memories_deduped := stats.memories_deduped + 1 }, ids)
  else
    let stored := store_new emb_doc dup.2 now op.content op.importance
        op.memory_type op.topic_tags source_session
    (stored.2, { stats with memories_stored := stats.memories_stored + 1 },
      ids ++ [stored.1])

/-- One iteration of the commit loop of `process_chunk`: an `update` whose
target exists is applied and counted; otherwise control falls through to the
create path. -/
noncomputable def commit_op (use_vec : Bool) (emb_doc emb_query : String → Vec)
    (dedup_threshold : ℝ) (source_session : String) (now : ℚ)
    (acc : CommitState) (op : MemoryOp) : CommitState :=
  let (S, stats, ids) := acc
  match op.target_id with
  | some tid =>
    if op.op = "update" then
      match get_memory S tid with
      | some _ =>
        let upd := update_op emb_doc S tid (some op.content) (some op.importance)
            (if op.topic_tags.isEmpty then none else some op.topic_tags)
        (upd.2, { stats with memories_updated := stats.memories_updated + 1 },
          ids ++ [tid])
      | none => create_path use_vec emb_doc emb_query dedup_threshold source_session now acc op
    else create_path use_vec emb_doc emb_query dedup_threshold source_session now acc op
  | none => create_path use_vec emb_doc emb_query dedup_threshold source_session now acc op

/-- `ExtractionPipeline.process_chunk` given the oracle answers: the gate
verdict `gate_result` and the decoded extractor array `items`.  Returns the
result ids, the store rows after all side effects, and the new counters. -/
noncomputable def process_chunk (use_vec : Bool) (emb_doc emb_query : String → Vec)
    (dedup_threshold : ℝ) (source_session : String) (now : ℚ)
    (gate_result : Bool) (items : List ExtractItem) (chunk : String)
    (S : Store) (stats : PipelineStats) : List ℤ × Store × PipelineStats :=
  let stats := { stats with chunks_processed := stats.chunks_processed + 1 }
  if !gate_result then ([], S, stats)
  else
    let stats := { stats with chunks_passed_gate := stats.chunks_passed_gate + 1 }
    let context := search_op use_vec S now (emb_query (chunk.take 500)) 5 0.60 none 1 []
    let ops := extract_ops items
    let stats := { stats with memories_extracted := stats.memories_extracted + ops.length }
    let final := ops.foldl
      (commit_op use_vec emb_doc emb_query dedup_threshold source_session now)
      (context.2, stats, [])
    (final.2.2, final.1, final.2.1)

/-! ## The conversation listener (`listener.py`)

Only the cursor/buffer bookkeeping is embedded (`_process_new_messages` and
the first-start state initialization); the HTTP polling and the flush
machinery around it are thin I/O.
-/

/-- A message from the CCC gateway, with the fields the listener reads.
`m.get("ID", 0)` makes a missing id behave as `0`. -/
structure CCCMessage where
  ID : ℕ
  Role : String
  Content : String
  Channel : String
deriving DecidableEq, Repr

/-- JSON-object maps (the `last_id` dict and the per-session buffers) as
association lists with unique keys. -/
def lookupA {α : Type} (m : List (String × α)) (k : String) : Option α :=
  (m.find? fun p => p.1 == k).map Prod.snd

/-- Assignment `m[k] = v` on an association list: replace the first binding
of `k`, or append a new one. -/
def setA {α : Type} : List (String × α) → String → α → List (String × α)
  | [], k, v => [(k, v)]
  | p :: rest, k, v => if p.1 = k then (k, v) :: rest else p :: setA rest k v

/-- The listener's persistent and in-memory state: the persisted `last_id`
cursor map and the in-memory per-session buffers. -/
structure ListenerState where
  last_id : List (String × ℕ)
  buffers : List (String × List String)
deriving DecidableEq, Repr

/-- The per-message body of the buffering loop in `_process_new_messages`:
skip empty content, system messages and short assistant fragments; format
user/assistant lines; other roles produce nothing. -/
def format_message (msg : CCCMessage) : Option String :=
  if msg.Content.trim = "" ∨ msg.Role = "system" then none
  else if msg.Role = "assistant" ∧ msg.Content.trim.length < 20 then none
  else if msg.Role = "user" then some ("User: " ++ msg.Content)
  else if msg.Role = "assistant" then some ("Assistant: " ++ msg.Content)
  else none

/-- The id ordering of `new_messages.sort(key=lambda m: m.get("ID", 0))`. -/
def byIdAsc (a b : CCCMessage) : Prop := a.ID ≤ b.ID

instance : DecidableRel byIdAsc := fun a b => inferInstanceAs (Decidable (a.ID ≤ b.ID))

instance : IsTotal CCCMessage byIdAsc := ⟨fun a b => Nat.le_total a.ID b.ID⟩

instance : IsTrans CCCMessage byIdAsc := ⟨fun _ _ _ h h' => le_trans h h'⟩

/-- `CCCListener._process_new_messages`: filter to ids above the session
cursor, sort by id, append formatted lines to the session buffer, advance
and persist the cursor. -/
def process_new_messages (st : ListenerState) (session : String)
    (messages : List CCCMessage) : ListenerState :=
  let last_id := (lookupA st.last_id session).getD 0
  let new_messages := messages.filter fun m => last_id < m.ID
  if new_messages = [] then st
  else
    let sorted := List.insertionSort byIdAsc new_messages
    let buf := (lookupA st.buffers session).getD []
    let buf := buf ++ sorted.filterMap format_message
    let st := { st with buffers := setA st.buffers session buf }
    let max_id := new_messages.foldl (fun acc m => Nat.max acc m.ID) 0
    if last_id < max_id then { st with last_id := setA st.last_id session max_id }
    else st

/-- `CCCListener._initialize_state`: on a truly first start (empty persisted
cursor map) record, for every active session that has messages, the current
maximum message id — buffering nothing.  `messages_of` is the gateway
oracle. -/
def init_listener_state (st : ListenerState) (active : List String)
    (messages_of : String → List CCCMessage) : ListenerState :=
  if st.last_id ≠ [] then st
  else
    { st with
      last_id := active.foldl
        (fun acc session =>
          let msgs := messages_of session
          if msgs = [] then acc
          else setA acc session (msgs.foldl (fun a m => Nat.max a m.ID) 0))
        st.last_id }

/-- The counter invariant of claim C9: every extracted operation has been
counted by exactly one of the three outcome counters, and no chunk passes
the gate without being counted as processed. -/
def counters_consistent (st : PipelineStats) : Prop :=
  st.memories_stored + st.memories_updated + st.memories_deduped = st.memories_extracted ∧
  st.chunks_passed_gate ≤ st.chunks_processed

/-! ## Concrete instances used by counterexamples and witnesses -/

/-- A minimal stored record: importance 1, never accessed, age 0 at `now = 0`,
embedding `[0, 1]`. -/
def exMem1 : Memory :=
  { id := 1, content := "alpha", importance := 1, memory_type := "fact",
    topic_tags := [], source_session := "", created_at := 0,
    last_accessed := none, access_count := 0, embedding := [0, 1] }

/-- A second record (id 2) for link examples. -/
def exMem2 : Memory := { exMem1 with id := 2, content := "beta" }

/-- A query embedding orthogonal to `exMem1.embedding`. -/
def exQuery : Vec := [1, 0]

/-- A link table already containing the edge `1 → 2` labelled `related`. -/
def exLinks : List MemoryLink := [{ from_id := 1, to_id := 2, relationship := "related" }]

/-- An extractor item: an update whose `memory_id` parses (`4`). -/
def exItemGood : ExtractItem :=
  { op := some "update", content := some "x", memory_id := some (.jnum 4) }

/-- An extractor item: an update whose `memory_id` is the falsy `0`, which
the `or` chain treats as absent. -/
def exItemBad : ExtractItem :=
  { op := some "update", content := some "x", memory_id := some (.jnum 0) }

/-- A parsed update operation targeting id 7. -/
def exUpdateOp : MemoryOp :=
  { op := "update", content := "x", importance := 3, memory_type := "general",
    topic_tags := [], target_id := some 7 }

/-- The operation `extract` parses out of `exItemGood`. -/
def exParsedOp4 : MemoryOp :=
  { op := "update", content := "x", importance := 3, memory_type := "general",
    topic_tags := [], target_id := some 4 }

/-- Filler record `i` (ids 1..50) whose embedding coincides with `exQuery`:
nearest possible to the query but of importance 1. -/
def noiseMem (i : ℕ) : Memory :=
  { id := (i : ℤ) + 1, content := "noise", importance := 1,
    memory_type := "conversation", topic_tags := [], source_session := "",
    created_at := 0, last_accessed := none, access_count := 0, embedding := [1, 0] }

/-- Record 51: the only row of importance 5, orthogonal to the query. -/
def targetMem : Memory :=
  { id := 51, content := "target", importance := 5, memory_type := "fact",
    topic_tags := [], source_session := "", created_at := 0,
    last_accessed := none, access_count := 0, embedding := [0, 1] }

/-- A 51-row store: the 50 nearest index entries are all importance-1 filler,
so a `min_importance = 5` search finds `targetMem` only on the numpy path —
the vec path's KNN window (`max(limit*5, 50) = 50` for `limit = 5`) is
exhausted by the filler rows before metadata filtering. -/
def bigStore : Store := ((List.range 50).map noiseMem) ++ [targetMem]

/-- A record anti-parallel to `exQuery`: cosine similarity exactly -1. -/
def negMem : Memory :=
  { id := 1, content := "neg", importance := 3, memory_type := "fact",
    topic_tags := [], source_session := "", created_at := 0,
    last_accessed := none, access_count := 0, embedding := [-1, 0] }

end MemoryAgent

namespace MemoryAgent

/-! ## Shared evaluation lemmas -/

theorem vnorm_exQuery : vnorm exQuery = 1 := by
  simp [vnorm, exQuery]

theorem batch_cosine_row_exQuery_exMem1 :
    batch_cosine_row exQuery exMem1.embedding = 0 := by
  rw [batch_cosine_row, if_neg (by rw [vnorm_exQuery]; norm_num)]
  simp [vdot, exQuery, exMem1]

theorem compute_score_zero_sim (now : ℚ) (m : Memory) : compute_score now 0 m = 0 := by
  simp [compute_score]

/-! ## Claim C5: monotonicity of the importance factor -/

/-- C5 counterexample: for a record whose content is orthogonal to the query
(cosine similarity exactly 0), raising importance from 1 to 5 leaves the
combined score unchanged (both are 0), so the increase is not strict. -/
theorem C5_counterexample :
    ({ exMem1 with importance := 5 }).importance = 5 ∧ exMem1.importance = 1 ∧
    ¬ (compute_score 0 (batch_cosine_row exQuery exMem1.embedding) exMem1 <
        compute_score 0 (batch_cosine_row exQuery ({ exMem1 with importance := 5 }).embedding)
          { exMem1 with importance := 5 }) := by
  refine ⟨rfl, rfl, ?_⟩
  have h : ({ exMem1 with importance := 5 } : Memory).embedding = exMem1.embedding := rfl
  rw [h, batch_cosine_row_exQuery_exMem1, compute_score_zero_sim, compute_score_zero_sim]
  exact lt_irrefl 0

/-- C5 (amended): holding similarity, age and access count fixed, raising
importance from 1 to 5 strictly increases `_compute_score` **provided the
similarity is positive** (at similarity 0 the score is 0 either way, and at
negative similarity the score strictly decreases). -/
theorem C5_score_importance_monotone (now : ℚ) (sim : ℝ) (m : Memory)
    (him : m.importance = 1) (hsim : 0 < sim) :
    compute_score now sim m < compute_score now sim { m with importance := 5 } := by
  simp only [compute_score, him]
  have hrec : (0 : ℝ) <
      0.5 + 0.5 * Real.exp (-(((now : ℝ) - (m.created_at : ℝ)) / 86400) / 120) := by
    positivity
  have hacc : (0 : ℝ) <
      1.0 + min 0.15 (Real.log (1 + (m.access_count : ℝ)) * 0.04) := by
    have hlog : (0 : ℝ) ≤ Real.log (1 + (m.access_count : ℝ)) :=
      Real.log_nonneg (le_add_of_nonneg_right (by positivity))
    have : (0 : ℝ) ≤ min 0.15 (Real.log (1 + (m.access_count : ℝ)) * 0.04) :=
      le_min (by norm_num) (mul_nonneg hlog (by norm_num))
    linarith
  have hfac : sim * (0.80 + (1 : ℤ) * 0.08) < sim * (0.80 + ((5 : ℤ) : ℝ) * 0.08) := by
    push_cast
    nlinarith
  exact mul_lt_mul_of_pos_right (mul_lt_mul_of_pos_right (by exact_mod_cast hfac) hrec) hacc

/-- Witness for `C5_score_importance_monotone` at similarity 1 and `exMem1`. -/
theorem C5_witness :
    compute_score 0 1 exMem1 < compute_score 0 1 { exMem1 with importance := 5 } :=
  C5_score_importance_monotone 0 1 exMem1 rfl (by norm_num)

/-! ## Claim C6: return value of `MemoryStore.update` -/

/-- C6: `update` returns `false` iff the id is unknown or the computed field
list is empty (content omitted or equal to the current content, importance
and tags omitted); it returns `true` exactly when the id exists and at least
one field enters the update list. -/
theorem C6_update_return_semantics (emb : String → Vec) (S : Store) (mid : ℤ)
    (c : Option String) (i : Option ℤ) (t : Option (List String)) :
    (get_memory S mid = none → (update_op emb S mid c i t).1 = false) ∧
    (∀ m, get_memory S mid = some m →
      (c = none ∨ c = some m.content) → i = none → t = none →
      (update_op emb S mid c i t).1 = false) ∧
    (∀ m, get_memory S mid = some m →
      ((∃ s, c = some s ∧ s ≠ m.content) ∨ i ≠ none ∨ t ≠ none) →
      (update_op emb S mid c i t).1 = true) := by
  refine ⟨fun h => by simp [update_op, h], ?_, ?_⟩
  · intro m hm hc hi ht
    subst hi; subst ht
    rcases hc with hc | hc <;> subst hc <;> simp [update_op, hm]
  · intro m hm hor
    rcases hor with ⟨s, hc, hs⟩ | hi | ht
    · subst hc; simp [update_op, hm, bne_iff_ne, hs]
    · rw [update_op, hm]
      rcases i with _ | iv; · exact absurd rfl hi
      simp
    · rw [update_op, hm]
      rcases t with _ | tv; · exact absurd rfl ht
      simp

/-- Witness for `C6_update_return_semantics`: unknown id, same-content no-op
and an effective importance update on a one-record store. -/
theorem C6_witness :
    (update_op (fun _ => ([] : Vec)) [exMem1] 2 none none none).1 = false ∧
    (update_op (fun _ => ([] : Vec)) [exMem1] 1 (some "alpha") none none).1 = false ∧
    (update_op (fun _ => ([] : Vec)) [exMem1] 1 none (some 4) none).1 = true := by
  refine ⟨(C6_update_return_semantics _ _ _ _ _ _).1 (by rfl),
    (C6_update_return_semantics _ _ _ _ _ _).2.1 exMem1 (by rfl) (Or.inr rfl) rfl rfl,
    (C6_update_return_semantics _ _ _ _ _ _).2.2 exMem1 (by rfl) (Or.inr (Or.inl (by simp)))⟩

/-! ## Claim C10: a same-content update is a no-op returning `false` -/

/-- C10: updating an existing record with exactly its current content (and no
other fields) returns `false` and leaves every row — hence also the derived
index entry — unchanged. -/
theorem C10_same_content_update_noop (emb : String → Vec) (S : Store) (mid : ℤ)
    (m : Memory) (hm : get_memory S mid = some m) :
    update_op emb S mid (some m.content) none none = (false, S) := by
  simp [update_op, hm]

/-- Witness for `C10_same_content_update_noop` on a one-record store. -/
theorem C10_witness :
    update_op (fun _ => ([] : Vec)) [exMem1] 1 (some "alpha") none none =
      (false, [exMem1]) :=
  C10_same_content_update_noop (fun _ => ([] : Vec)) [exMem1] 1 exMem1 (by rfl)

/-! ## Claim C2: duplicate links -/

/-- C2 counterexample: with records 1 and 2 present and the edge
`(1, 2, "related")` already stored, `link` succeeds again — it returns `True`
and inserts a second identical edge, because `memory_links` has no uniqueness
constraint on the triple.  The claim's no-op failure does not occur. -/
theorem C2_counterexample :
    link_op [exMem1, exMem2] exLinks 1 2 "related" =
      (true, [{ from_id := 1, to_id := 2, relationship := "related" },
              { from_id := 1, to_id := 2, relationship := "related" }]) := by
  rfl

/-- C2 (amended): whenever both endpoint ids exist, `link` returns `True` and
appends the edge even if an identical triple is already present (its count
increases by one); `False` arises only from a foreign-key violation, i.e. a
missing endpoint, in which case nothing is inserted. -/
theorem C2_duplicate_link_inserted (S : Store) (links : List MemoryLink)
    (f t : ℤ) (rel : String) (hf : (get_memory S f).isSome)
    (ht : (get_memory S t).isSome)
    (_hdup : ({ from_id := f, to_id := t, relationship := rel } : MemoryLink) ∈ links) :
    (link_op S links f t rel).1 = true ∧
    (link_op S links f t rel).2.count
        ({ from_id := f, to_id := t, relationship := rel } : MemoryLink) =
      links.count ({ from_id := f, to_id := t, relationship := rel } : MemoryLink) + 1 ∧
    (∀ S' : Store, (get_memory S' f).isSome = false →
      link_op S' links f t rel = (false, links)) := by
  refine ⟨by simp [link_op, hf, ht], ?_, ?_⟩
  · simp [link_op, hf, ht]
  · intro S' hS'
    simp [link_op, hS']

/-- Witness for `C2_duplicate_link_inserted` on the concrete two-record
store with a pre-existing edge. -/
theorem C2_witness :
    (link_op [exMem1, exMem2] exLinks 1 2 "related").1 = true ∧
    (link_op [exMem1, exMem2] exLinks 1 2 "related").2.count
        ({ from_id := 1, to_id := 2, relationship := "related" } : MemoryLink) =
      exLinks.count ({ from_id := 1, to_id := 2, relationship := "related" } : MemoryLink) + 1 ∧
    (∀ S' : Store, (get_memory S' 1).isSome = false →
      link_op S' exLinks 1 2 "related" = (false, exLinks)) :=
  C2_duplicate_link_inserted [exMem1, exMem2] exLinks 1 2 "related"
    (by rfl) (by rfl) (by simp [exLinks])

/-! ## Claim C8: the listener cursor -/

theorem lookupA_setA_self {α : Type} (m : List (String × α)) (k : String) (v : α) :
    lookupA (setA m k v) k = some v := by
  induction m with
  | nil => simp [setA, lookupA]
  | cons p rest ih =>
    by_cases h : p.1 = k
    · simp [setA, h, lookupA]
    · simp only [setA, if_neg h, lookupA, List.find?]
      rw [show (p.1 == k) = false by simpa using h]
      exact ih

theorem lookupA_setA_of_ne {α : Type} (m : List (String × α)) (k k' : String) (v : α)
    (h : k' ≠ k) : lookupA (setA m k v) k' = lookupA m k' := by
  induction m with
  | nil => simp [setA, lookupA, List.find?, show (k == k') = false by simpa using (Ne.symm h)]
  | cons p rest ih =>
    by_cases hp : p.1 = k
    · have h1 : (k == k') = false := by simpa using (Ne.symm h)
      have h2 : (p.1 == k') = false := by rw [hp]; simpa using (Ne.symm h)
      simp [setA, if_pos hp, lookupA, List.find?, h1, h2]
    · simp only [setA, if_neg hp, lookupA, List.find?]
      cases hd : p.1 == k'
      · exact ih
      · rfl

/-- Seed and members are below a `foldl Nat.max`. -/
theorem foldl_nat_max_le (l : List CCCMessage) :
    ∀ a : ℕ, a ≤ l.foldl (fun a m => Nat.max a m.ID) a ∧
      ∀ m ∈ l, m.ID ≤ l.foldl (fun a m => Nat.max a m.ID) a := by
  induction l with
  | nil => simp
  | cons x rest ih =>
    intro a
    simp only [List.foldl_cons]
    refine ⟨le_trans (Nat.le_max_left a x.ID) (ih (Nat.max a x.ID)).1, ?_⟩
    intro m hm
    rcases List.mem_cons.mp hm with rfl | hm
    · exact le_trans (Nat.le_max_right a m.ID) (ih (Nat.max a m.ID)).1
    · exact (ih (Nat.max a x.ID)).2 m hm

/-- A `foldl Nat.max` over a list is the seed or an element. -/
theorem foldl_nat_max_attained (l : List CCCMessage) :
    ∀ a : ℕ, l.foldl (fun a m => Nat.max a m.ID) a = a ∨
      ∃ m ∈ l, l.foldl (fun a m => Nat.max a m.ID) a = m.ID := by
  induction l with
  | nil => simp
  | cons x rest ih =>
    intro a
    simp only [List.foldl_cons]
    have h := ih (Nat.max a x.ID)
    rcases h with h | ⟨m, hm, he⟩
    · rcases Nat.le_total a x.ID with hc | hc
      · right; exact ⟨x, by simp, by rw [h]; exact Nat.max_eq_right hc⟩
      · left; rw [h]; exact Nat.max_eq_left hc
    · right; exact ⟨m, by simp [hm], he⟩

/-- Folding the init-state step over sessions not containing `s` leaves the
binding of `s` untouched. -/
theorem init_fold_lookup_not_mem (messages_of : String → List CCCMessage)
    (l : List String) (acc : List (String × ℕ)) (s : String) (hs : s ∉ l) :
    lookupA (l.foldl
      (fun acc session =>
        if messages_of session = [] then acc
        else setA acc session
          ((messages_of session).foldl (fun a m => Nat.max a m.ID) 0)) acc) s =
    lookupA acc s := by
  induction l generalizing acc with
  | nil => rfl
  | cons x rest ih =>
    have hx : s ≠ x := fun h => hs (h ▸ List.mem_cons_self x rest)
    have hrest : s ∉ rest := fun h => hs (List.mem_cons_of_mem x h)
    simp only [List.foldl_cons]
    rw [ih _ hrest]
    split
    · rfl
    · exact lookupA_setA_of_ne acc x s _ hx

/-- Folding the init-state step over sessions containing `s` (with messages)
sets the binding of `s` to the max message id. -/
theorem init_fold_lookup_mem (messages_of : String → List CCCMessage)
    (l : List String) (acc : List (String × ℕ)) (s : String) (hs : s ∈ l)
    (hmsg : messages_of s ≠ []) :
    lookupA (l.foldl
      (fun acc session =>
        if messages_of session = [] then acc
        else setA acc session
          ((messages_of session).foldl (fun a m => Nat.max a m.ID) 0)) acc) s =
    some ((messages_of s).foldl (fun a m => Nat.max a m.ID) 0) := by
  induction l generalizing acc with
  | nil => cases hs
  | cons x rest ih =>
    simp only [List.foldl_cons]
    by_cases hsr : s ∈ rest
    · exact ih _ hsr
    · have hx : s = x := by
        rcases List.mem_cons.mp hs with h | h
        · exact h
        · exact absurd h hsr
      subst hx
      rw [init_fold_lookup_not_mem messages_of rest _ s hsr]
      rw [if_neg hmsg]
      exact lookupA_setA_self acc s _

/-- C8: (1) a poll whose messages all have ids at or below the persisted
cursor leaves the listener state — buffers and cursors — completely
unchanged, so after a restart already-processed messages are never
reprocessed; (2) in general, messages at or below the cursor are discarded
before buffering: processing a message batch is the same as processing only
its above-cursor part; (3) on a true first start (empty persisted cursor
map), initialization buffers nothing and records, for every active session
with messages, exactly the current maximum message id as the cursor. -/
theorem C8_listener_cursor :
    (∀ (st : ListenerState) (session : String) (messages : List CCCMessage),
      (∀ m ∈ messages, m.ID ≤ (lookupA st.last_id session).getD 0) →
      process_new_messages st session messages = st) ∧
    (∀ (st : ListenerState) (session : String) (messages : List CCCMessage),
      process_new_messages st session messages =
        process_new_messages st session
          (messages.filter fun m => (lookupA st.last_id session).getD 0 < m.ID)) ∧
    (∀ (st : ListenerState) (active : List String)
      (messages_of : String → List CCCMessage), st.last_id = [] →
      (init_listener_state st active messages_of).buffers = st.buffers ∧
      ∀ s ∈ active, messages_of s ≠ [] →
        ∃ c, lookupA (init_listener_state st active messages_of).last_id s = some c ∧
          (∀ m ∈ messages_of s, m.ID ≤ c) ∧ (∃ m ∈ messages_of s, c = m.ID)) := by
  refine ⟨?_, ?_, ?_⟩
  · intro st session messages h
    have hnil : messages.filter (fun m => (lookupA st.last_id session).getD 0 < m.ID) = [] := by
      rw [List.filter_eq_nil_iff]
      intro m hm
      simpa using h m hm
    rw [process_new_messages]
    simp [hnil]
  · intro st session messages
    rw [process_new_messages]
    conv_rhs => rw [process_new_messages]
    rw [List.filter_filter]
    simp
  · intro st active messages_of hempty
    constructor
    · rw [init_listener_state, if_neg (by simp [hempty])]
    · intro s hs hmsg
      refine ⟨(messages_of s).foldl (fun a m => Nat.max a m.ID) 0, ?_, ?_, ?_⟩
      · rw [init_listener_state, if_neg (by simp [hempty])]
        exact init_fold_lookup_mem messages_of active st.last_id s hs hmsg
      · exact (foldl_nat_max_le (messages_of s) 0).2
      · rcases foldl_nat_max_attained (messages_of s) 0 with h | h
        · rcases List.exists_mem_of_ne_nil _ hmsg with ⟨m, hm⟩
          exact ⟨m, hm, by
            have h1 := (foldl_nat_max_le (messages_of s) 0).2 m hm
            omega⟩
        · rcases h with ⟨m, hm, he⟩
          exact ⟨m, hm, he⟩

/-- Witness for `C8_listener_cursor`: a persisted cursor at 10 ignores a
replayed message 10; a first start against one active session with messages
records cursor 7 and leaves the (empty) buffers alone. -/
theorem C8_witness :
    process_new_messages ⟨[("s", 10)], []⟩ "s" [⟨10, "user", "hello there", "c"⟩] =
      (⟨[("s", 10)], []⟩ : ListenerState) ∧
    ((init_listener_state ⟨[], []⟩ ["s"]
        (fun _ => [⟨7, "user", "payload", "c"⟩])).buffers = [] ∧
      ∃ c, lookupA (init_listener_state ⟨[], []⟩ ["s"]
          (fun _ => [⟨7, "user", "payload", "c"⟩])).last_id "s" = some c ∧
        (∀ m ∈ [(⟨7, "user", "payload", "c"⟩ : CCCMessage)], m.ID ≤ c) ∧
        (∃ m ∈ [(⟨7, "user", "payload", "c"⟩ : CCCMessage)], c = m.ID)) := by
  constructor
  · exact C8_listener_cursor.1 ⟨[("s", 10)], []⟩ "s" _ (by decide)
  · have h := (C8_listener_cursor.2.2 ⟨[], []⟩ ["s"]
      (fun _ => [⟨7, "user", "payload", "c"⟩]) rfl)
    exact ⟨h.1, h.2 "s" (by simp) (by simp)⟩

/-! ## Claim C7: update operations downgraded / falling through to create -/

theorem resolve_op_update_has_target (t : String) (p : Option JVal)
    (h : (resolve_op t p).1 = "update") : ∃ n, (resolve_op t p).2 = some n := by
  by_cases ht : t = "update"
  · rw [resolve_op.eq_def, if_pos ht] at h ⊢
    cases p with
    | none => exact absurd h (by decide)
    | some v =>
      cases hv : v.asInt with
      | none => exfalso; simp [hv] at h
      | some n => exact ⟨n, by simp [hv]⟩
  · rw [resolve_op.eq_def, if_neg ht] at h
    exact absurd h ht

theorem resolve_op_downgrade (p : Option JVal)
    (h : p = none ∨ ∃ v, p = some v ∧ v.asInt = none) :
    resolve_op "update" p = ("create", none) := by
  rcases h with rfl | ⟨v, rfl, hv⟩
  · rfl
  · rw [resolve_op.eq_def, if_pos rfl]
    simp [hv]

theorem parse_item_update_has_target (item : ExtractItem) (o : MemoryOp)
    (h : parse_item item = some (some o)) (hop : o.op = "update") :
    ∃ n, o.target_id = some n := by
  cases hc : item.content with
  | none => rw [parse_item] at h; simp [hc] at h
  | some c =>
    cases hi : parse_importance item with
    | none => rw [parse_item] at h; simp [hc, hi] at h
    | some imp =>
      rw [parse_item] at h
      simp only [hc, hi, Option.some.injEq] at h
      subst h
      obtain ⟨n, hn⟩ := resolve_op_update_has_target _ _ hop
      exact ⟨n, hn⟩

/-- C7: (1) every operation `extract` emits with kind `update` carries a
successfully parsed integer target id — an update whose id is absent or
unparseable is emitted as `create` instead (2, the explicit downgrade); and
(3) at commit time an `update` whose target id is missing from the store is
handled by the create path (duplicate check and all), not dropped and not an
error. -/
theorem C7_update_downgrade_and_fallthrough :
    (∀ (items : List ExtractItem) (o : MemoryOp), o ∈ extract_ops items →
      o.op = "update" → ∃ n, o.target_id = some n) ∧
    (∀ (item : ExtractItem) (c : String) (imp : ℤ),
      item.content = some c → item.op = some "update" →
      (pick_target item = none ∨ ∃ v, pick_target item = some v ∧ v.asInt = none) →
      parse_importance item = some imp →
      ∃ o, parse_item item = some (some o) ∧ o.op = "create" ∧ o.target_id = none ∧
        o.content = c) ∧
    (∀ (use_vec : Bool) (emb_doc emb_query : String → Vec) (thr : ℝ) (sess : String)
      (now : ℚ) (acc : CommitState) (op : MemoryOp),
      op.op = "update" →
      (op.target_id = none ∨ ∃ tid, op.target_id = some tid ∧ get_memory acc.1 tid = none) →
      commit_op use_vec emb_doc emb_query thr sess now acc op =
        create_path use_vec emb_doc emb_query thr sess now acc op) := by
  refine ⟨?_, ?_, ?_⟩
  · intro items o hmem hop
    induction items with
    | nil => cases hmem
    | cons item rest ih =>
      rw [extract_ops] at hmem
      cases hp : parse_item item with
      | none => rw [hp] at hmem; cases hmem
      | some oo =>
        cases oo with
        | none => rw [hp] at hmem; exact ih hmem
        | some o' =>
          rw [hp] at hmem
          rcases List.mem_cons.mp hmem with rfl | hmem
          · exact parse_item_update_has_target item o hp hop
          · exact ih hmem
  · intro item c imp hc hop hbad himp
    refine ⟨{ op := "create", content := c, importance := clampImportance imp,
              memory_type := item.memory_type.getD "general",
              topic_tags := item.topic_tags.getD [], target_id := none },
      ?_, rfl, rfl, rfl⟩
    rw [parse_item, hc]
    simp only [hop, Option.getD_some, himp]
    rw [if_pos (Or.inr trivial), resolve_op_downgrade _ hbad]
  · intro use_vec emb_doc emb_query thr sess now acc op hop hbad
    obtain ⟨S, stats, ids⟩ := acc
    rcases hbad with hnone | ⟨tid, htid, hget⟩
    · simp only [commit_op, hnone]
    · simp only at hget
      simp only [commit_op, htid, hop, if_pos, hget]

/-- Witness for `C7_update_downgrade_and_fallthrough`: a parsed update op
with target 4 (part 1), an update with absent (falsy) id downgraded to
create (part 2), and a commit of an update targeting id 7 in an empty store
(part 3). -/
theorem C7_witness :
    (∃ n, exParsedOp4.target_id = some n) ∧
    (∃ o, parse_item exItemBad = some (some o) ∧
      o.op = "create" ∧ o.target_id = none ∧ o.content = "x") ∧
    (commit_op false (fun _ => []) (fun _ => []) 0.85 "" 0 ([], initial_stats, [])
        exUpdateOp =
      create_path false (fun _ => []) (fun _ => []) 0.85 "" 0 ([], initial_stats, [])
        exUpdateOp) := by
  refine ⟨?_, ?_, ?_⟩
  · exact C7_update_downgrade_and_fallthrough.1 [exItemGood] exParsedOp4 (by decide) rfl
  · exact C7_update_downgrade_and_fallthrough.2.1 exItemBad "x" 3 rfl rfl
      (Or.inl rfl) rfl
  · exact C7_update_downgrade_and_fallthrough.2.2 false _ _ 0.85 "" 0 _ _ rfl
      (Or.inr ⟨7, rfl, rfl⟩)

/-! ## Claim C4: the access-count frame property of search -/

theorem applyAccessUpdates_eq_map (now : ℚ) :
    ∀ (taken : List SearchResult) (S : Store),
      (taken.map fun r => r.memory.id).Nodup →
      applyAccessUpdates now taken S =
        S.map fun m =>
          if m.id ∈ (taken.map fun r => r.memory.id) then bump_access now m else m := by
  intro taken
  induction taken with
  | nil => intro S _; simp [applyAccessUpdates]
  | cons r rest ih =>
    intro S hnd
    have hnd' : (rest.map fun r => r.memory.id).Nodup := (List.nodup_cons.mp hnd).2
    have hhead : r.memory.id ∉ rest.map fun r => r.memory.id := (List.nodup_cons.mp hnd).1
    have hstep : applyAccessUpdates now (r :: rest) S =
        applyAccessUpdates now rest
          (S.map fun m => if m.id = r.memory.id then bump_access now m else m) := rfl
    rw [hstep, ih _ hnd', List.map_map]
    have hfun : ((fun m =>
          if m.id ∈ (rest.map fun r => r.memory.id) then bump_access now m else m) ∘
        (fun m => if m.id = r.memory.id then bump_access now m else m)) =
        fun m => if m.id ∈ ((r :: rest).map fun r => r.memory.id) then bump_access now m
          else m := by
      funext m
      simp only [Function.comp_apply]
      by_cases hid : m.id = r.memory.id
      · rw [if_pos hid]
        have hnotin : (bump_access now m).id ∉ rest.map fun r => r.memory.id := by
          have hb : (bump_access now m).id = r.memory.id := by rw [← hid]; rfl
          rw [hb]; exact hhead
        rw [if_neg hnotin]
        have hin : m.id ∈ (r :: rest).map fun r => r.memory.id := by
          rw [List.map_cons]; exact List.mem_cons.mpr (Or.inl hid)
        rw [if_pos hin]
      · rw [if_neg hid]
        have hiff : (m.id ∈ (r :: rest).map fun r => r.memory.id) ↔
            (m.id ∈ rest.map fun r => r.memory.id) := by
          rw [List.map_cons, List.mem_cons]
          exact or_iff_right hid
        by_cases hm : m.id ∈ rest.map fun r => r.memory.id
        · rw [if_pos hm, if_pos (hiff.mpr hm)]
        · rw [if_neg hm, if_neg (fun h => hm (hiff.mp h))]
    rw [hfun]

theorem filterMap_search_ids_sublist (f : Memory → Option SearchResult)
    (hf : ∀ m r, f m = some r → r.memory = m) :
    ∀ l : List Memory, ((l.filterMap f).map fun r => r.memory.id) <+ l.map Memory.id := by
  intro l
  induction l with
  | nil => simp
  | cons m rest ih =>
    rw [List.filterMap_cons]
    cases hm : f m with
    | none => exact ih.cons m.id
    | some r =>
      simp only [List.map_cons]
      rw [show r.memory = m from hf m r hm]
      exact ih.cons₂ m.id

theorem search_numpy_frame (S : Store) (now : ℚ) (q : Vec) (limit : ℕ)
    (threshold : ℝ) (mtype : Option String) (minImp : ℤ) (excl : List ℤ)
    (hnd : (S.map Memory.id).Nodup) :
    (search_numpy S now q limit threshold mtype minImp excl).2 =
      S.map (fun m =>
        if m.id ∈ ((search_numpy S now q limit threshold mtype minImp excl).1.map
            fun r => r.memory.id) then bump_access now m else m) ∧
    (search_numpy S now q limit threshold mtype minImp excl).1.length ≤ limit := by
  simp only [search_numpy]
  split_ifs with h1 h2
  · simp
  · simp
  · constructor
    · apply applyAccessUpdates_eq_map
      have hface : ∀ (m : Memory) (r : SearchResult),
          (fun m =>
            let sim := batch_cosine_row q m.embedding
            let score := compute_score now sim m
            if threshold ≤ score then some ⟨m, score, sim⟩ else none) m = some r →
          r.memory = m := by
        intro m r hr
        dsimp only at hr
        split at hr
        · cases hr; rfl
        · cases hr
      have hsubS : (((S.filter fun m =>
            decide (minImp ≤ m.importance) && typeMatches mtype m).filter
              fun m => !(excl.contains m.id)).map Memory.id) <+ S.map Memory.id :=
        ((List.filter_sublist _).trans (List.filter_sublist _)).map Memory.id
      have hndR := List.Nodup.sublist
        ((filterMap_search_ids_sublist _ hface _).trans hsubS) hnd
      have hndSorted := (List.Perm.nodup_iff
        ((List.perm_insertionSort byScoreDesc _).map fun r => r.memory.id)).mpr hndR
      exact List.Nodup.sublist ((List.take_sublist _ _).map _) hndSorted
    · rw [List.length_take]
      exact Nat.min_le_left _ _

theorem search_vec_frame (S : Store) (now : ℚ) (q : Vec) (limit : ℕ)
    (threshold : ℝ) (mtype : Option String) (minImp : ℤ) (excl : List ℤ)
    (hnd : (S.map Memory.id).Nodup) :
    (search_vec S now q limit threshold mtype minImp excl).2 =
      S.map (fun m =>
        if m.id ∈ ((search_vec S now q limit threshold mtype minImp excl).1.map
            fun r => r.memory.id) then bump_access now m else m) ∧
    (search_vec S now q limit threshold mtype minImp excl).1.length ≤ limit := by
  simp only [search_vec]
  split_ifs with h1
  · simp
  · constructor
    · apply applyAccessUpdates_eq_map
      have hface : ∀ (m : Memory) (r : SearchResult),
          (fun m =>
            if excl.contains m.id then none
            else if !typeMatches mtype m then none
            else if m.importance < minImp then none
            else
              let cosine_distance :=
                ((((List.insertionSort byDistAsc (S.map fun m =>
                    (m.id, vec_cosine_distance q m.embedding))).take
                      (max (limit * 5) 50)).find? fun e => e.1 == m.id).map
                  Prod.snd).getD 1
              let sim := 1 - cosine_distance
              let score := compute_score now sim m
              if threshold ≤ score then some ⟨m, score, sim⟩ else none) m = some r →
          r.memory = m := by
        intro m r hr
        dsimp only at hr
        split at hr
        · cases hr
        · split at hr
          · cases hr
          · split at hr
            · cases hr
            · split at hr
              · cases hr; rfl
              · cases hr
      have hsubS : ((S.filter fun m =>
          (((List.insertionSort byDistAsc (S.map fun m =>
              (m.id, vec_cosine_distance q m.embedding))).take
                (max (limit * 5) 50)).map Prod.fst).contains m.id).map Memory.id) <+
          S.map Memory.id :=
        (List.filter_sublist _).map Memory.id
      have hndR := List.Nodup.sublist
        ((filterMap_search_ids_sublist _ hface _).trans hsubS) hnd
      have hndSorted := (List.Perm.nodup_iff
        ((List.perm_insertionSort byScoreDesc _).map fun r => r.memory.id)).mpr hndR
      exact List.Nodup.sublist ((List.take_sublist _ _).map _) hndSorted
    · rw [List.length_take]
      exact Nat.min_le_left _ _

/-- C4: on a store with distinct row ids, either search path updates
`last_accessed` and increments `access_count` for exactly the records of the
returned list (every other row, and every other field, is untouched), and
the returned list has at most `limit` entries. -/
theorem C4_search_access_frame (S : Store) (now : ℚ) (q : Vec) (limit : ℕ)
    (threshold : ℝ) (mtype : Option String) (minImp : ℤ) (excl : List ℤ)
    (hnd : (S.map Memory.id).Nodup) :
    ∀ use_vec : Bool,
      (search_op use_vec S now q limit threshold mtype minImp excl).2 =
        S.map (fun m =>
          if m.id ∈ ((search_op use_vec S now q limit threshold mtype minImp excl).1.map
              fun r => r.memory.id) then bump_access now m else m) ∧
      (search_op use_vec S now q limit threshold mtype minImp excl).1.length ≤ limit := by
  intro use_vec
  cases use_vec with
  | false =>
    simpa [search_op] using search_numpy_frame S now q limit threshold mtype minImp excl hnd
  | true =>
    simpa [search_op] using search_vec_frame S now q limit threshold mtype minImp excl hnd

/-- Witness for `C4_search_access_frame` on the one-record store. -/
theorem C4_witness :
    ((search_op false [exMem1] 0 exQuery 5 0 none 1 []).2 =
        [exMem1].map (fun m =>
          if m.id ∈ ((search_op false [exMem1] 0 exQuery 5 0 none 1 []).1.map
              fun r => r.memory.id) then bump_access 0 m else m) ∧
      (search_op false [exMem1] 0 exQuery 5 0 none 1 []).1.length ≤ 5) ∧
    ((search_op true [exMem1] 0 exQuery 5 0 none 1 []).2 =
        [exMem1].map (fun m =>
          if m.id ∈ ((search_op true [exMem1] 0 exQuery 5 0 none 1 []).1.map
              fun r => r.memory.id) then bump_access 0 m else m) ∧
      (search_op true [exMem1] 0 exQuery 5 0 none 1 []).1.length ≤ 5) :=
  ⟨C4_search_access_frame [exMem1] 0 exQuery 5 0 none 1 [] (by decide) false,
    C4_search_access_frame [exMem1] 0 exQuery 5 0 none 1 [] (by decide) true⟩

/-! ## Claim C1: the vec path against the numpy path -/

theorem vdot_nil_left (b : Vec) : vdot [] b = 0 := by simp [vdot]

theorem vdot_nil_right (a : Vec) : vdot a [] = 0 := by cases a <;> simp [vdot]

theorem vdot_cons (x y : ℚ) (t u : Vec) :
    vdot (x :: t) (y :: u) = (x : ℝ) * (y : ℝ) + vdot t u := by
  simp [vdot]

theorem vdot_comm : ∀ a b : Vec, vdot a b = vdot b a := by
  intro a
  induction a with
  | nil => intro b; rw [vdot_nil_left, vdot_nil_right]
  | cons x t ih =>
    intro b
    cases b with
    | nil => rw [vdot_nil_left, vdot_nil_right]
    | cons y u => rw [vdot_cons, vdot_cons, mul_comm, ih u]

theorem sum_sq_eq_zero : ∀ {l : List ℚ}, ((l.map fun x : ℚ => ((x : ℝ)) ^ 2).sum = 0) →
    ∀ x ∈ l, (x : ℝ) = 0 := by
  intro l
  induction l with
  | nil => intro _ x hx; exact absurd hx (List.not_mem_nil x)
  | cons a t ih =>
    intro h x hx
    simp only [List.map_cons, List.sum_cons] at h
    have h2 : (0 : ℝ) ≤ (t.map fun x : ℚ => ((x : ℝ)) ^ 2).sum := by
      apply List.sum_nonneg
      intro y hy
      obtain ⟨z, -, rfl⟩ := List.mem_map.mp hy
      exact sq_nonneg _
    have h1 : (0 : ℝ) ≤ (a : ℝ) ^ 2 := sq_nonneg _
    have ha : (a : ℝ) ^ 2 = 0 := by linarith
    rcases List.mem_cons.mp hx with rfl | hx
    · exact pow_eq_zero_iff (by norm_num) |>.mp ha
    · exact ih (by linarith) x hx

theorem vdot_eq_zero_of_forall : ∀ {a : Vec}, (∀ x ∈ a, (x : ℝ) = 0) →
    ∀ b, vdot a b = 0 := by
  intro a
  induction a with
  | nil => intro _ b; exact vdot_nil_left b
  | cons x t ih =>
    intro h b
    cases b with
    | nil => exact vdot_nil_right _
    | cons y u =>
      rw [vdot_cons, h x (by simp), zero_mul, zero_add]
      exact ih (fun z hz => h z (by simp [hz])) u

theorem vdot_eq_zero_of_vnorm_eq_zero {a : Vec} (h : vnorm a = 0) (b : Vec) :
    vdot a b = 0 := by
  have hnn : (0 : ℝ) ≤ (a.map fun x : ℚ => ((x : ℝ)) ^ 2).sum := by
    apply List.sum_nonneg
    intro y hy
    obtain ⟨z, -, rfl⟩ := List.mem_map.mp hy
    exact sq_nonneg _
  have hsum := (Real.sqrt_eq_zero hnn).mp h
  exact vdot_eq_zero_of_forall (sum_sq_eq_zero hsum) b

/-- The similarity `1 - distance` reported by the vec path equals the
similarity the numpy fallback computes, including the degenerate zero-norm
cases. -/
theorem sim_agree (q v : Vec) : 1 - vec_cosine_distance q v = batch_cosine_row q v := by
  rw [vec_cosine_distance, batch_cosine_row, sub_sub_cancel]
  by_cases hq : vnorm q = 0
  · rw [if_pos hq, hq, zero_mul, div_zero]
  · rw [if_neg hq]
    by_cases hv : vnorm v = 0
    · rw [if_pos hv, hv, mul_zero, div_zero, vdot_eq_zero_of_vnorm_eq_zero hv q, zero_div]
    · rw [if_neg hv, vdot_comm q v, mul_comm (vnorm q) (vnorm v)]

/-- Looking a key up in the distance dictionary built from KNN rows returns
the unique distance attached to that key. -/
theorem find_entry_dist (i : ℤ) (d : ℝ) :
    ∀ L : List (ℤ × ℝ), (∃ e ∈ L, e.1 = i) → (∀ e ∈ L, e.1 = i → e.2 = d) →
      (((L.find? fun e => e.1 == i).map Prod.snd).getD 1) = d := by
  intro L
  induction L with
  | nil => rintro ⟨e, he, -⟩; cases he
  | cons x rest ih =>
    intro hmem huniq
    by_cases hx : x.1 = i
    · rw [List.find?_cons_of_pos _ (by simpa using hx)]
      simpa using huniq x (List.mem_cons_self _ _) hx
    · rw [List.find?_cons_of_neg _ (by simpa using hx)]
      apply ih
      · rcases hmem with ⟨e, he, hei⟩
        rcases List.mem_cons.mp he with rfl | he
        · exact absurd hei hx
        · exact ⟨e, he, hei⟩
      · intro e he hei
        exact huniq e (List.mem_cons_of_mem _ he) hei

theorem search_numpy_eq_core (S : Store) (now : ℚ) (q : Vec) (limit : ℕ)
    (threshold : ℝ) (mtype : Option String) (minImp : ℤ) (excl : List ℤ) :
    search_numpy S now q limit threshold mtype minImp excl =
      search_core S now q limit threshold mtype minImp excl := by
  simp only [search_numpy, search_core]
  split_ifs with h1 h2
  · rw [h1]
    simp [applyAccessUpdates]
  · rw [h2]
    simp [applyAccessUpdates]
  · rfl

theorem search_vec_eq_core (S : Store) (now : ℚ) (q : Vec) (limit : ℕ)
    (threshold : ℝ) (mtype : Option String) (minImp : ℤ) (excl : List ℤ)
    (hnd : (S.map Memory.id).Nodup) (hsize : S.length ≤ max (limit * 5) 50) :
    search_vec S now q limit threshold mtype minImp excl =
      search_core S now q limit threshold mtype minImp excl := by
  by_cases hS : S = []
  · subst hS
    simp [search_vec, search_core, applyAccessUpdates]
  · simp only [search_vec, search_core]
    have hlen : (List.insertionSort byDistAsc
        (S.map fun m => (m.id, vec_cosine_distance q m.embedding))).length ≤
        max (limit * 5) 50 := by
      rw [List.length_insertionSort, List.length_map]
      exact hsize
    rw [List.take_of_length_le hlen]
    have hperm : (List.insertionSort byDistAsc
        (S.map fun m => (m.id, vec_cosine_distance q m.embedding))) ~
        S.map fun m => (m.id, vec_cosine_distance q m.embedding) :=
      List.perm_insertionSort _ _
    have hne : (List.insertionSort byDistAsc
        (S.map fun m => (m.id, vec_cosine_distance q m.embedding))).isEmpty = false := by
      rw [List.isEmpty_eq_false_iff_exists_mem]
      rcases List.exists_mem_of_ne_nil S hS with ⟨m, hm⟩
      exact ⟨_, hperm.mem_iff.mpr (List.mem_map_of_mem _ hm)⟩
    rw [hne]
    simp only [Bool.false_eq_true, if_false]
    have hmem_rows : (S.filter fun m =>
        ((List.insertionSort byDistAsc
          (S.map fun m => (m.id, vec_cosine_distance q m.embedding))).map
            Prod.fst).contains m.id) = S := by
      rw [List.filter_eq_self]
      intro m hm
      have hmem : m.id ∈ (List.insertionSort byDistAsc
          (S.map fun m => (m.id, vec_cosine_distance q m.embedding))).map Prod.fst := by
        apply (hperm.map Prod.fst).mem_iff.mpr
        rw [List.map_map]
        exact List.mem_map_of_mem _ hm
      exact List.elem_iff.mpr hmem
    rw [hmem_rows]
    have hres : (S.filterMap fun m =>
        if excl.contains m.id then none
        else if !typeMatches mtype m then none
        else if m.importance < minImp then none
        else
          let cosine_distance :=
            (((List.insertionSort byDistAsc
              (S.map fun m => (m.id, vec_cosine_distance q m.embedding))).find?
                fun e => e.1 == m.id).map Prod.snd).getD 1
          let sim := 1 - cosine_distance
          let score := compute_score now sim m
          if threshold ≤ score then some (⟨m, score, sim⟩ : SearchResult) else none) =
        ((S.filter fun m => decide (minImp ≤ m.importance) && typeMatches mtype m).filter
          fun m => !(excl.contains m.id)).filterMap fun m =>
            let sim := batch_cosine_row q m.embedding
            let score := compute_score now sim m
            if threshold ≤ score then some (⟨m, score, sim⟩ : SearchResult)
            else none := by
      rw [List.filterMap_filter, List.filterMap_filter]
      apply List.filterMap_congr
      intro m hm
      have hdist : ((((List.insertionSort byDistAsc
          (S.map fun m => (m.id, vec_cosine_distance q m.embedding))).find?
            fun e => e.1 == m.id).map Prod.snd).getD 1) =
          vec_cosine_distance q m.embedding := by
        apply find_entry_dist
        · refine ⟨(m.id, vec_cosine_distance q m.embedding), ?_, rfl⟩
          exact hperm.mem_iff.mpr (List.mem_map_of_mem _ hm)
        · intro e he hei
          have he' := hperm.mem_iff.mp he
          obtain ⟨m', hm', rfl⟩ := List.mem_map.mp he'
          have hmm : m' = m := List.inj_on_of_nodup_map hnd hm' hm hei
          rw [hmm]
      simp only [hdist, sim_agree]
      cases hec : excl.contains m.id with
      | true => simp
      | false =>
        cases htm : typeMatches mtype m with
        | false => simp
        | true =>
          by_cases himp : minImp ≤ m.importance
          · simp [himp, not_lt.mpr himp]
          · simp [himp, not_le.mp himp]
    rw [hres]

/-- C1 (amended): on a store with distinct row ids whose size does not
exceed the KNN fetch window `max(limit * 5, 50)`, the two search paths
return identical result lists (same records, scores, similarities, order,
thresholding and truncation) and identical post-states. -/
theorem C1_search_paths_agree (S : Store) (now : ℚ) (q : Vec) (limit : ℕ)
    (threshold : ℝ) (mtype : Option String) (minImp : ℤ) (excl : List ℤ)
    (hnd : (S.map Memory.id).Nodup) (hsize : S.length ≤ max (limit * 5) 50) :
    search_vec S now q limit threshold mtype minImp excl =
      search_numpy S now q limit threshold mtype minImp excl :=
  (search_vec_eq_core S now q limit threshold mtype minImp excl hnd hsize).trans
    (search_numpy_eq_core S now q limit threshold mtype minImp excl).symm

/-- Witness for `C1_search_paths_agree` on the one-record store. -/
theorem C1_witness :
    search_vec [exMem1] 0 exQuery 5 0 none 1 [] =
      search_numpy [exMem1] 0 exQuery 5 0 none 1 [] :=
  C1_search_paths_agree [exMem1] 0 exQuery 5 0 none 1 [] (by decide) (by decide)

theorem vnorm_10 : vnorm [1, 0] = 1 := by
  rw [vnorm]
  norm_num

theorem vnorm_01 : vnorm [0, 1] = 1 := by
  rw [vnorm]
  norm_num

theorem dist_noise : vec_cosine_distance exQuery [1, 0] = 0 := by
  rw [vec_cosine_distance]
  have hd : vdot exQuery [1, 0] = 1 := by
    rw [show exQuery = [1, 0] from rfl, vdot_cons, vdot_cons, vdot_nil_left]
    norm_num
  rw [hd, show vnorm exQuery = 1 from vnorm_10, vnorm_10]
  norm_num

theorem dist_target : vec_cosine_distance exQuery [0, 1] = 1 := by
  rw [vec_cosine_distance]
  have hd : vdot exQuery [0, 1] = 0 := by
    rw [show exQuery = [1, 0] from rfl, vdot_cons, vdot_cons, vdot_nil_left]
    norm_num
  rw [hd, show vnorm exQuery = 1 from vnorm_10, vnorm_01]
  norm_num

theorem pairwise_of_total {α : Type} {R : α → α → Prop} (h : ∀ a b, R a b) :
    ∀ l : List α, l.Pairwise R := by
  intro l
  induction l with
  | nil => exact List.Pairwise.nil
  | cons a t ih => exact List.Pairwise.cons (fun b _ => h a b) ih

theorem bigStore_entries :
    bigStore.map (fun m => (m.id, vec_cosine_distance exQuery m.embedding)) =
      ((List.range 50).map fun i : ℕ => ((i : ℤ) + 1, (0 : ℝ))) ++ [(51, (1 : ℝ))] := by
  rw [bigStore, List.map_append, List.map_map]
  congr 1
  · apply List.map_congr_left
    intro i _
    simp only [Function.comp_apply, noiseMem]
    rw [dist_noise]
  · simp only [List.map_cons, List.map_nil, targetMem]
    rw [dist_target]

theorem bigStore_entries_sorted :
    List.Sorted byDistAsc
      (((List.range 50).map fun i : ℕ => ((i : ℤ) + 1, (0 : ℝ))) ++ [(51, (1 : ℝ))]) := by
  rw [List.Sorted, List.pairwise_append]
  refine ⟨?_, List.pairwise_singleton _ _, ?_⟩
  · rw [List.pairwise_map]
    exact pairwise_of_total (fun a b => le_refl (0 : ℝ)) _
  · intro x hx y hy
    obtain ⟨i, -, rfl⟩ := List.mem_map.mp hx
    rcases List.mem_singleton.mp hy with rfl
    show (0 : ℝ) ≤ 1
    norm_num

/-- C1 counterexample: on the 51-row `bigStore` with `limit = 5`,
`threshold = 0`, `min_importance = 5`, the vec path returns nothing (its
50-entry KNN window is filled by the nearer importance-1 filler rows, which
the metadata filter then discards) while the numpy path returns the
importance-5 record: the two paths are not equivalent. -/
theorem C1_counterexample :
    (search_vec bigStore 0 exQuery 5 0 none 5 []).1 = [] ∧
    (search_numpy bigStore 0 exQuery 5 0 none 5 []).1 ≠ [] := by
  constructor
  · simp only [search_vec]
    rw [bigStore_entries, List.Sorted.insertionSort_eq bigStore_entries_sorted,
      show max (5 * 5) 50 = 50 from by norm_num,
      List.take_left' (by simp)]
    have hne : (((List.range 50).map fun i : ℕ => ((i : ℤ) + 1, (0 : ℝ)))).isEmpty = false := by
      simp [List.isEmpty_iff]
    rw [hne]
    simp only [Bool.false_eq_true, if_false]
    have hres : (bigStore.filter fun m =>
        ((((List.range 50).map fun i : ℕ => ((i : ℤ) + 1, (0 : ℝ)))).map Prod.fst).contains
          m.id).filterMap (fun m =>
        if ([] : List ℤ).contains m.id then none
        else if !typeMatches none m then none
        else if m.importance < 5 then none
        else
          let cosine_distance :=
            (((((List.range 50).map fun i : ℕ => ((i : ℤ) + 1, (0 : ℝ)))).find?
              fun e => e.1 == m.id).map Prod.snd).getD 1
          let sim := 1 - cosine_distance
          let score := compute_score 0 sim m
          if (0 : ℝ) ≤ score then some (⟨m, score, sim⟩ : SearchResult) else none) = [] := by
      rw [List.filterMap_eq_nil_iff]
      intro m hm
      have hm' := List.mem_filter.mp hm
      rcases List.mem_append.mp hm'.1 with hmem | hmem
      · obtain ⟨i, -, rfl⟩ := List.mem_map.mp hmem
        simp [noiseMem, typeMatches]
      · rcases List.mem_singleton.mp hmem with rfl
        exfalso
        have := hm'.2
        revert this
        decide
    rw [hres]
    simp
  · simp only [search_numpy]
    have hrows : (bigStore.filter fun m =>
        decide ((5 : ℤ) ≤ m.importance) && typeMatches none m) = [targetMem] := by
      decide
    rw [hrows]
    rw [if_neg (by simp)]
    have hmem2 : ([targetMem].filter fun m => !(([] : List ℤ).contains m.id)) =
        [targetMem] := by decide
    rw [hmem2]
    rw [if_neg (by simp)]
    have hsim : batch_cosine_row exQuery targetMem.embedding = 0 := by
      have : targetMem.embedding = exMem1.embedding := rfl
      rw [this]
      exact batch_cosine_row_exQuery_exMem1
    have hfm : ([targetMem].filterMap fun m =>
        let sim := batch_cosine_row exQuery m.embedding
        let score := compute_score 0 sim m
        if (0 : ℝ) ≤ score then some (⟨m, score, sim⟩ : SearchResult) else none) =
        [⟨targetMem, compute_score 0 (batch_cosine_row exQuery targetMem.embedding) targetMem,
          batch_cosine_row exQuery targetMem.embedding⟩] := by
      rw [List.filterMap_cons, List.filterMap_nil]
      simp only [hsim, compute_score_zero_sim]
      rw [if_pos (le_refl (0 : ℝ))]
    rw [hfm]
    simp [List.insertionSort, List.orderedInsert]


/-! ## Claim C3: find_duplicates called twice in a row -/

theorem vnorm_neg10 : vnorm [-1, 0] = 1 := by
  rw [vnorm]
  norm_num

theorem batch_cosine_row_negMem : batch_cosine_row exQuery negMem.embedding = -1 := by
  rw [batch_cosine_row, if_neg (by rw [show vnorm exQuery = 1 from vnorm_10]; norm_num)]
  have hd : vdot negMem.embedding exQuery = -1 := by
    rw [show negMem.embedding = [-1, 0] from rfl, show exQuery = [1, 0] from rfl,
      vdot_cons, vdot_cons, vdot_nil_left]
    norm_num
  rw [hd, show negMem.embedding = [-1, 0] from rfl, vnorm_neg10,
    show vnorm exQuery = 1 from vnorm_10]
  norm_num

theorem score_negMem_first : compute_score 0 (-1) negMem = -1.04 := by
  simp only [compute_score, negMem]
  norm_num [Real.exp_zero, Real.log_one, min_def]

theorem score_negMem_second :
    compute_score 0 (-1) (bump_access 0 negMem) < -1.05 := by
  simp only [compute_score, bump_access, negMem]
  have h2 : ((1 : ℝ) + (0 + 1 : ℕ)) = 2 := by norm_num
  rw [h2]
  have hlt : Real.log 2 * 0.04 ≤ 0.15 := by
    nlinarith [Real.log_two_lt_d9]
  rw [min_eq_right hlt]
  norm_num [Real.exp_zero]
  nlinarith [Real.log_two_gt_d9]

/-- C3 counterexample: with a negative threshold (-1.05) and a record whose
similarity to the query is -1, the first `find_duplicates` call returns the
record (score -1.04 ≥ -1.05) and, by bumping its access count, pushes its
score below the threshold, so the second identical call returns the empty
candidate set. -/
theorem C3_counterexample :
    (find_duplicates false [negMem] 0 exQuery (-1.05)).1 ≠ [] ∧
    (find_duplicates false (find_duplicates false [negMem] 0 exQuery (-1.05)).2 0 exQuery
        (-1.05)).1 = [] := by
  have hcall1 : find_duplicates false [negMem] 0 exQuery (-1.05) =
      ([⟨negMem, compute_score 0 (batch_cosine_row exQuery negMem.embedding) negMem,
          batch_cosine_row exQuery negMem.embedding⟩],
        [bump_access 0 negMem]) := by
    simp only [find_duplicates, search_op, Bool.false_eq_true, if_false, search_numpy]
    rw [show ([negMem].filter fun m =>
        decide ((1 : ℤ) ≤ m.importance) && typeMatches none m) = [negMem] from by decide]
    rw [if_neg (by simp)]
    rw [show ([negMem].filter fun m => !(([] : List ℤ).contains m.id)) = [negMem] from by
      decide]
    rw [if_neg (by simp)]
    rw [List.filterMap_cons, List.filterMap_nil]
    have hscore : ((-1.05 : ℝ) ≤
        compute_score 0 (batch_cosine_row exQuery negMem.embedding) negMem) := by
      rw [batch_cosine_row_negMem, score_negMem_first]
      norm_num
    rw [if_pos hscore]
    rfl
  constructor
  · rw [hcall1]
    simp
  · rw [hcall1]
    simp only [find_duplicates, search_op, Bool.false_eq_true, if_false, search_numpy]
    rw [show ([bump_access 0 negMem].filter fun m =>
        decide ((1 : ℤ) ≤ m.importance) && typeMatches none m) = [bump_access 0 negMem]
      from by decide]
    rw [if_neg (by simp)]
    rw [show ([bump_access 0 negMem].filter fun m => !(([] : List ℤ).contains m.id)) =
        [bump_access 0 negMem] from by decide]
    rw [if_neg (by simp)]
    rw [List.filterMap_cons, List.filterMap_nil]
    have hscore : ¬ ((-1.05 : ℝ) ≤
        compute_score 0 (batch_cosine_row exQuery (bump_access 0 negMem).embedding)
          (bump_access 0 negMem)) := by
      rw [show (bump_access 0 negMem).embedding = negMem.embedding from rfl,
        batch_cosine_row_negMem]
      exact not_le.mpr score_negMem_second
    rw [if_neg hscore]
    simp

theorem two_mem_pair_sublist {α : Type} {l : List α} {a b : α} (ha : a ∈ l) (hb : b ∈ l)
    (hne : a ≠ b) : [a, b] <+ l ∨ [b, a] <+ l := by
  induction l with
  | nil => cases ha
  | cons h t ih =>
    by_cases hah : a = h
    · subst hah
      have hbt : b ∈ t := by
        rcases List.mem_cons.mp hb with rfl | h1
        · exact absurd rfl hne
        · exact h1
      exact Or.inl ((List.singleton_sublist.mpr hbt).cons₂ a)
    · by_cases hbh : b = h
      · subst hbh
        have hat : a ∈ t := by
          rcases List.mem_cons.mp ha with h1 | h1
          · exact absurd h1 hah
          · exact h1
        exact Or.inr ((List.singleton_sublist.mpr hat).cons₂ b)
      · have hat : a ∈ t := by
          rcases List.mem_cons.mp ha with h1 | h1
          · exact absurd h1 hah
          · exact h1
        have hbt : b ∈ t := by
          rcases List.mem_cons.mp hb with h1 | h1
          · exact absurd h1 hbh
          · exact h1
        rcases ih hat hbt with h1 | h1
        · exact Or.inl (h1.cons h)
        · exact Or.inr (h1.cons h)

/-- In a duplicate-free list, an element of the `take` prefix never appears
after an element of the `drop` suffix. -/
theorem not_pair_of_take_drop {α : Type} {l : List α} (hnd : l.Nodup) {a b : α} {k : ℕ}
    (ha : a ∈ l.take k) (hb : b ∈ l.drop k) : ¬ ([b, a] <+ l) := by
  intro h
  have hl : l.take k ++ l.drop k = l := List.take_append_drop k l
  rw [← hl] at h hnd
  have hdisj := (List.nodup_append.mp hnd).2.2
  rw [List.sublist_append_iff] at h
  obtain ⟨x, y, hxy, hx, hy⟩ := h
  cases x with
  | nil =>
    have hys : ([b, a] : List α) <+ l.drop k := by
      rw [List.nil_append] at hxy
      rw [hxy]
      exact hy
    exact hdisj ha (hys.subset (by simp))
  | cons x0 xt =>
    rw [List.cons_append] at hxy
    injection hxy with h1 h2
    subst h1
    exact hdisj (hx.subset (List.mem_cons_self _ _)) hb

/-- In a list sorted by descending score, a strictly higher-scoring member
appears before a strictly lower-scoring one. -/
theorem sorted_pair_of_score_lt {L : List SearchResult} (hs : List.Sorted byScoreDesc L)
    {a b : SearchResult} (ha : a ∈ L) (hb : b ∈ L) (hab : b.score < a.score) :
    [a, b] <+ L := by
  induction L with
  | nil => cases ha
  | cons h t ih =>
    have hs' := List.sorted_cons.mp hs
    by_cases hah : a = h
    · subst hah
      have hbt : b ∈ t := by
        rcases List.mem_cons.mp hb with rfl | h1
        · exact absurd hab (lt_irrefl _)
        · exact h1
      exact (List.singleton_sublist.mpr hbt).cons₂ a
    · have hat : a ∈ t := by
        rcases List.mem_cons.mp ha with h1 | h1
        · exact absurd h1 hah
        · exact h1
      have hbt : b ∈ t := by
        rcases List.mem_cons.mp hb with rfl | h1
        · exact absurd hab (not_lt.mpr (hs'.1 a hat))
        · exact h1
      exact (ih hs'.2 hat hbt).cons h

/-- The stable-sort take-set lemma: if every taken element's score weakly
increases under `φ` while every non-taken element is left untouched, the set
of ids surviving sort-and-take is unchanged.  Stability of the sort (ties
keep their original order) is exactly what makes the tie cases work. -/
theorem take_sort_set_eq (k : ℕ) (K₁ : List SearchResult)
    (φ : SearchResult → SearchResult)
    (hnd : (K₁.map fun r => r.memory.id).Nodup)
    (hid : ∀ r ∈ K₁, (φ r).memory.id = r.memory.id)
    (hT : ∀ r ∈ K₁, r.memory.id ∈ (((List.insertionSort byScoreDesc K₁).take k).map
        fun r => r.memory.id) → r.score ≤ (φ r).score)
    (hNT : ∀ r ∈ K₁, r.memory.id ∉ (((List.insertionSort byScoreDesc K₁).take k).map
        fun r => r.memory.id) → φ r = r) :
    ∀ i, (i ∈ (((List.insertionSort byScoreDesc (K₁.map φ)).take k).map
        fun r => r.memory.id)) ↔
      i ∈ (((List.insertionSort byScoreDesc K₁).take k).map fun r => r.memory.id) := by
  intro i
  have hperm₁ : List.insertionSort byScoreDesc K₁ ~ K₁ := List.perm_insertionSort _ _
  have hperm₂ : List.insertionSort byScoreDesc (K₁.map φ) ~ K₁.map φ :=
    List.perm_insertionSort _ _
  have hsorted₁ : List.Sorted byScoreDesc (List.insertionSort byScoreDesc K₁) :=
    List.sorted_insertionSort _ _
  have hsorted₂ : List.Sorted byScoreDesc (List.insertionSort byScoreDesc (K₁.map φ)) :=
    List.sorted_insertionSort _ _
  have hndK₁ : K₁.Nodup := List.Nodup.of_map _ hnd
  have hK₂ids : (K₁.map φ).map (fun r => r.memory.id) = K₁.map fun r => r.memory.id := by
    rw [List.map_map]
    exact List.map_congr_left (fun r hr => hid r hr)
  have hndK₂ids : ((K₁.map φ).map fun r => r.memory.id).Nodup := by rw [hK₂ids]; exact hnd
  have hndK₂ : (K₁.map φ).Nodup := List.Nodup.of_map _ hndK₂ids
  have hndL₁ : (List.insertionSort byScoreDesc K₁).Nodup := hperm₁.nodup_iff.mpr hndK₁
  have hndL₂ : (List.insertionSort byScoreDesc (K₁.map φ)).Nodup :=
    hperm₂.nodup_iff.mpr hndK₂
  by_cases hk : (List.insertionSort byScoreDesc K₁).take k = []
  · rw [hk]
    have h2 : (List.insertionSort byScoreDesc (K₁.map φ)).take k = [] := by
      rcases List.take_eq_nil_iff.mp hk with hk0 | hL
      · rw [hk0, List.take_zero]
      · have hK1 : K₁ = [] := by
          have := hperm₁
          rw [hL] at this
          exact this.nil_eq.symm
        subst hK1
        simp
    rw [h2]
  · -- the take prefix is nonempty
    have hmain : ∀ x ∈ (List.insertionSort byScoreDesc K₁).take k, ∀ y ∈ K₁,
        y.memory.id ∉ (((List.insertionSort byScoreDesc K₁).take k).map
          fun r => r.memory.id) →
        [φ x, φ y] <+ List.insertionSort byScoreDesc (K₁.map φ) := by
      intro x hx y hy hyid
      have hxK : x ∈ K₁ := hperm₁.mem_iff.mp (List.mem_of_mem_take hx)
      have hxid : x.memory.id ∈ (((List.insertionSort byScoreDesc K₁).take k).map
          fun r => r.memory.id) := List.mem_map_of_mem _ hx
      have hyL : y ∈ List.insertionSort byScoreDesc K₁ := hperm₁.mem_iff.mpr hy
      have hyT : y ∉ (List.insertionSort byScoreDesc K₁).take k :=
        fun hyT => hyid (List.mem_map_of_mem _ hyT)
      have hyD : y ∈ (List.insertionSort byScoreDesc K₁).drop k := by
        have h3 : y ∈ (List.insertionSort byScoreDesc K₁).take k ++
            (List.insertionSort byScoreDesc K₁).drop k := by
          rw [List.take_append_drop]
          exact hyL
        rcases List.mem_append.mp h3 with h4 | h4
        · exact absurd h4 hyT
        · exact h4
      have hscore_xy : byScoreDesc x y :=
        hsorted₁.rel_of_mem_take_of_mem_drop hx hyD
      have hysc : φ y = y := hNT y hy hyid
      have hxsc : x.score ≤ (φ x).score := hT x hxK hxid
      have hyx : y.score ≤ (φ x).score := le_trans hscore_xy hxsc
      rcases lt_or_eq_of_le hyx with hlt | heq
      · apply sorted_pair_of_score_lt hsorted₂
          (hperm₂.mem_iff.mpr (List.mem_map_of_mem φ hxK))
          (hperm₂.mem_iff.mpr (List.mem_map_of_mem φ hy))
        rw [hysc]
        exact hlt
      · have hxyeq : x.score = y.score :=
          le_antisymm (heq ▸ hxsc) hscore_xy
        have hxyne : x ≠ y := fun h => hyid (h ▸ hxid)
        rcases two_mem_pair_sublist hxK hy hxyne with hpair | hpair
        · have hmap : [φ x, φ y] <+ K₁.map φ := by
            have h5 := hpair.map φ
            simpa using h5
          apply List.pair_sublist_insertionSort ?_ hmap
          show (φ y).score ≤ (φ x).score
          rw [hysc, heq]
        · exfalso
          have hyx2 : [y, x] <+ List.insertionSort byScoreDesc K₁ :=
            List.pair_sublist_insertionSort
              (show x.score ≤ y.score from hxyeq.le) hpair
          exact not_pair_of_take_drop hndL₁ hx hyD hyx2
    -- every element of the second take is the φ-image of a taken element
    have hsubPA : ∀ p ∈ (List.insertionSort byScoreDesc (K₁.map φ)).take k,
        ∃ x ∈ (List.insertionSort byScoreDesc K₁).take k, p = φ x := by
      intro p hp
      have hpK₂ : p ∈ K₁.map φ := hperm₂.mem_iff.mp (List.mem_of_mem_take hp)
      obtain ⟨r, hrK, rfl⟩ := List.mem_map.mp hpK₂
      by_cases hrT : r.memory.id ∈ (((List.insertionSort byScoreDesc K₁).take k).map
          fun r => r.memory.id)
      · obtain ⟨x, hxT, hxid⟩ := List.mem_map.mp hrT
        have hxK : x ∈ K₁ := hperm₁.mem_iff.mp (List.mem_of_mem_take hxT)
        have hxr : x = r := List.inj_on_of_nodup_map hnd hxK hrK hxid
        exact ⟨x, hxT, by rw [hxr]⟩
      · exfalso
        -- every taken original x has its image before φ r in the new sort
        by_cases hall : ∀ x ∈ (List.insertionSort byScoreDesc K₁).take k,
            φ x ∈ (List.insertionSort byScoreDesc (K₁.map φ)).take k
        · -- the new prefix then holds φ r plus the |T| distinct images: too many
          have hTid_eq : ((List.insertionSort byScoreDesc K₁).take k).map
              (fun x => (φ x).memory.id) =
              ((List.insertionSort byScoreDesc K₁).take k).map fun x => x.memory.id :=
            List.map_congr_left (fun x hx =>
              hid x (hperm₁.mem_iff.mp (List.mem_of_mem_take hx)))
          have hndTids : (((List.insertionSort byScoreDesc K₁).take k).map
              fun x => x.memory.id).Nodup := by
            have hsub : ((List.insertionSort byScoreDesc K₁).take k).map
                (fun x => x.memory.id) <+
                (List.insertionSort byScoreDesc K₁).map fun x => x.memory.id :=
              (List.take_sublist _ _).map _
            exact List.Nodup.sublist hsub ((hperm₁.map _).nodup_iff.mpr hnd)
          have hAidnd : ((φ r :: ((List.insertionSort byScoreDesc K₁).take k).map φ).map
              fun x => x.memory.id).Nodup := by
            rw [List.map_cons, List.map_map]
            refine List.nodup_cons.mpr ⟨?_, ?_⟩
            · rw [hid r hrK]
              intro hmem
              apply hrT
              have h6 : (((List.insertionSort byScoreDesc K₁).take k).map
                  fun x => (φ x).memory.id) =
                  ((List.insertionSort byScoreDesc K₁).take k).map
                    ((fun x => x.memory.id) ∘ φ) := by
                rfl
              rw [← h6, hTid_eq] at hmem
              exact hmem
            · have h6 : (((List.insertionSort byScoreDesc K₁).take k).map
                  ((fun x => x.memory.id) ∘ φ)) =
                  ((List.insertionSort byScoreDesc K₁).take k).map
                    fun x => (φ x).memory.id := rfl
              rw [h6, hTid_eq]
              exact hndTids
          have hAnd : (φ r :: ((List.insertionSort byScoreDesc K₁).take k).map φ).Nodup :=
            List.Nodup.of_map _ hAidnd
          have hAsub : (φ r :: ((List.insertionSort byScoreDesc K₁).take k).map φ) ⊆
              (List.insertionSort byScoreDesc (K₁.map φ)).take k := by
            intro a hma
            rcases List.mem_cons.mp hma with rfl | hma
            · exact hp
            · obtain ⟨x, hxT, rfl⟩ := List.mem_map.mp hma
              exact hall x hxT
          have hsubperm := (List.Nodup.subperm hAnd hAsub).length_le
          have hlen2 : ((List.insertionSort byScoreDesc (K₁.map φ)).take k).length =
              ((List.insertionSort byScoreDesc K₁).take k).length := by
            rw [List.length_take, List.length_take, List.length_insertionSort,
              List.length_insertionSort, List.length_map]
          rw [List.length_cons, List.length_map, hlen2] at hsubperm
          omega
        · push_neg at hall
          obtain ⟨x, hxT, hφx⟩ := hall
          have hφxD : φ x ∈ (List.insertionSort byScoreDesc (K₁.map φ)).drop k := by
            have h3 : φ x ∈ (List.insertionSort byScoreDesc (K₁.map φ)).take k ++
                (List.insertionSort byScoreDesc (K₁.map φ)).drop k := by
              rw [List.take_append_drop]
              exact hperm₂.mem_iff.mpr
                (List.mem_map_of_mem φ (hperm₁.mem_iff.mp (List.mem_of_mem_take hxT)))
            rcases List.mem_append.mp h3 with h4 | h4
            · exact absurd h4 hφx
            · exact h4
          exact not_pair_of_take_drop hndL₂ hp hφxD (hmain x hxT r hrK hrT)
    -- the second take is a permutation of the φ-image of the first take
    have hPnd : ((List.insertionSort byScoreDesc (K₁.map φ)).take k).Nodup :=
      List.Nodup.sublist (List.take_sublist _ _) hndL₂
    have hPsub : (List.insertionSort byScoreDesc (K₁.map φ)).take k ⊆
        ((List.insertionSort byScoreDesc K₁).take k).map φ := by
      intro p hp
      obtain ⟨x, hxT, rfl⟩ := hsubPA p hp
      exact List.mem_map_of_mem φ hxT
    have hlen2 : (((List.insertionSort byScoreDesc K₁).take k).map φ).length ≤
        ((List.insertionSort byScoreDesc (K₁.map φ)).take k).length := by
      rw [List.length_map, List.length_take, List.length_take,
        List.length_insertionSort, List.length_insertionSort, List.length_map]
    have hPerm : (List.insertionSort byScoreDesc (K₁.map φ)).take k ~
        ((List.insertionSort byScoreDesc K₁).take k).map φ :=
      (List.Nodup.subperm hPnd hPsub).perm_of_length_le hlen2
    have hmemiff := (hPerm.map fun r => r.memory.id).mem_iff (a := i)
    rw [List.map_map] at hmemiff
    have hcomp : (((List.insertionSort byScoreDesc K₁).take k).map
        ((fun r => r.memory.id) ∘ φ)) =
        ((List.insertionSort byScoreDesc K₁).take k).map fun r => r.memory.id :=
      List.map_congr_left (fun x hx =>
        hid x (hperm₁.mem_iff.mp (List.mem_of_mem_take hx)))
    rw [hcomp] at hmemiff
    exact hmemiff

/-- `_compute_score` in factored form: similarity times the product of the
three auxiliary factors. -/
theorem compute_score_eq (now : ℚ) (s : ℝ) (m : Memory) :
    compute_score now s m = s * ((0.80 + (m.importance : ℝ) * 0.08) *
      (0.5 + 0.5 * Real.exp (-(((now : ℝ) - (m.created_at : ℝ)) / 86400) / 120)) *
      (1.0 + min 0.15 (Real.log (1 + (m.access_count : ℝ)) * 0.04))) := by
  simp only [compute_score]
  ring

/-- With the schema's `importance >= 1` invariant the product of the
importance, recency and access factors is strictly positive. -/
theorem score_factors_pos (now : ℚ) (m : Memory) (himp : 1 ≤ m.importance) :
    0 < (0.80 + (m.importance : ℝ) * 0.08) *
        (0.5 + 0.5 * Real.exp (-(((now : ℝ) - (m.created_at : ℝ)) / 86400) / 120)) *
        (1.0 + min 0.15 (Real.log (1 + (m.access_count : ℝ)) * 0.04)) := by
  have himp' : (1 : ℝ) ≤ (m.importance : ℝ) := by exact_mod_cast himp
  have h1 : (0 : ℝ) < 0.80 + (m.importance : ℝ) * 0.08 := by nlinarith
  have h2 : (0 : ℝ) <
      0.5 + 0.5 * Real.exp (-(((now : ℝ) - (m.created_at : ℝ)) / 86400) / 120) := by
    positivity
  have h3 : (0 : ℝ) < 1.0 + min 0.15 (Real.log (1 + (m.access_count : ℝ)) * 0.04) := by
    have hlog : (0 : ℝ) ≤ Real.log (1 + (m.access_count : ℝ)) :=
      Real.log_nonneg (le_add_of_nonneg_right (by positivity))
    have hmin : (0 : ℝ) ≤ min 0.15 (Real.log (1 + (m.access_count : ℝ)) * 0.04) :=
      le_min (by norm_num) (mul_nonneg hlog (by norm_num))
    linarith
  exact mul_pos (mul_pos h1 h2) h3

/-- A score that clears a nonnegative threshold can only come from a
nonnegative similarity (the other factors are positive). -/
theorem sim_nonneg_of_score (now : ℚ) (m : Memory) (s threshold : ℝ)
    (himp : 1 ≤ m.importance) (hthr : 0 ≤ threshold)
    (hsc : threshold ≤ compute_score now s m) : 0 ≤ s := by
  by_contra hneg
  push_neg at hneg
  have hP := score_factors_pos now m himp
  have hlt : compute_score now s m < 0 := by
    rw [compute_score_eq]
    exact mul_neg_of_neg_of_pos hneg hP
  linarith

/-- Bumping the access count (the search side effect) never lowers the score
of a record whose similarity is nonnegative: `log1p` is monotone and the
access factor is capped from above, not below. -/
theorem compute_score_bump_mono (now : ℚ) (s : ℝ) (m : Memory) (hs : 0 ≤ s)
    (himp : 1 ≤ m.importance) :
    compute_score now s m ≤ compute_score now s (bump_access now m) := by
  rw [compute_score_eq, compute_score_eq]
  have hc1 : (bump_access now m).importance = m.importance := rfl
  have hc2 : (bump_access now m).created_at = m.created_at := rfl
  have hc3 : (bump_access now m).access_count = m.access_count + 1 := rfl
  rw [hc1, hc2, hc3]
  have himp' : (1 : ℝ) ≤ (m.importance : ℝ) := by exact_mod_cast himp
  have h1 : (0 : ℝ) ≤ 0.80 + (m.importance : ℝ) * 0.08 := by nlinarith
  have h2 : (0 : ℝ) ≤
      0.5 + 0.5 * Real.exp (-(((now : ℝ) - (m.created_at : ℝ)) / 86400) / 120) := by
    positivity
  have hlog : Real.log (1 + (m.access_count : ℝ)) ≤
      Real.log (1 + ((m.access_count + 1 : ℕ) : ℝ)) := by
    apply Real.log_le_log (by positivity)
    push_cast
    linarith
  have h3 : 1.0 + min 0.15 (Real.log (1 + (m.access_count : ℝ)) * 0.04) ≤
      1.0 + min 0.15 (Real.log (1 + ((m.access_count + 1 : ℕ) : ℝ)) * 0.04) := by
    have hmul : Real.log (1 + (m.access_count : ℝ)) * 0.04 ≤
        Real.log (1 + ((m.access_count + 1 : ℕ) : ℝ)) * 0.04 :=
      mul_le_mul_of_nonneg_right hlog (by norm_num)
    have hminle := min_le_min (le_refl (0.15 : ℝ)) hmul
    linarith
  have h3' := mul_le_mul_of_nonneg_left h3 (mul_nonneg h1 h2)
  exact mul_le_mul_of_nonneg_left h3' hs

/-- A score that clears a nonnegative threshold does not drop when the access
count is bumped: the access factor is the only factor that changes, it is
positive and non-decreasing in the count, and the rest of the product must be
nonnegative for the threshold to have been cleared at all. -/
theorem score_bump_passes (now : ℚ) (s : ℝ) (m : Memory) (threshold : ℝ)
    (hthr : 0 ≤ threshold) (hsc : threshold ≤ compute_score now s m) :
    compute_score now s m ≤ compute_score now s (bump_access now m) := by
  rw [compute_score_eq] at hsc
  rw [compute_score_eq, compute_score_eq]
  have hc1 : (bump_access now m).importance = m.importance := rfl
  have hc2 : (bump_access now m).created_at = m.created_at := rfl
  have hc3 : (bump_access now m).access_count = m.access_count + 1 := rfl
  rw [hc1, hc2, hc3]
  have hlog0 : (0 : ℝ) ≤ Real.log (1 + (m.access_count : ℝ)) :=
    Real.log_nonneg (le_add_of_nonneg_right (by positivity))
  have hF3pos : (0 : ℝ) <
      1.0 + min 0.15 (Real.log (1 + (m.access_count : ℝ)) * 0.04) := by
    have hmin : (0 : ℝ) ≤ min 0.15 (Real.log (1 + (m.access_count : ℝ)) * 0.04) :=
      le_min (by norm_num) (mul_nonneg hlog0 (by norm_num))
    linarith
  have hlog : Real.log (1 + (m.access_count : ℝ)) ≤
      Real.log (1 + ((m.access_count + 1 : ℕ) : ℝ)) := by
    apply Real.log_le_log (by positivity)
    push_cast
    linarith
  have hF3le : 1.0 + min 0.15 (Real.log (1 + (m.access_count : ℝ)) * 0.04) ≤
      1.0 + min 0.15 (Real.log (1 + ((m.access_count + 1 : ℕ) : ℝ)) * 0.04) := by
    have hmul : Real.log (1 + (m.access_count : ℝ)) * 0.04 ≤
        Real.log (1 + ((m.access_count + 1 : ℕ) : ℝ)) * 0.04 :=
      mul_le_mul_of_nonneg_right hlog (by norm_num)
    have hminle := min_le_min (le_refl (0.15 : ℝ)) hmul
    linarith
  have hB : (0 : ℝ) ≤ s * ((0.80 + (m.importance : ℝ) * 0.08) *
      (0.5 + 0.5 * Real.exp (-(((now : ℝ) - (m.created_at : ℝ)) / 86400) / 120))) := by
    by_contra hneg
    push_neg at hneg
    have hlt : s * ((0.80 + (m.importance : ℝ) * 0.08) *
        (0.5 + 0.5 * Real.exp (-(((now : ℝ) - (m.created_at : ℝ)) / 86400) / 120)) *
        (1.0 + min 0.15 (Real.log (1 + (m.access_count : ℝ)) * 0.04))) < 0 := by
      nlinarith
    linarith
  calc s * ((0.80 + (m.importance : ℝ) * 0.08) *
        (0.5 + 0.5 * Real.exp (-(((now : ℝ) - (m.created_at : ℝ)) / 86400) / 120)) *
        (1.0 + min 0.15 (Real.log (1 + (m.access_count : ℝ)) * 0.04)))
      = (s * ((0.80 + (m.importance : ℝ) * 0.08) *
          (0.5 + 0.5 * Real.exp (-(((now : ℝ) - (m.created_at : ℝ)) / 86400) / 120)))) *
        (1.0 + min 0.15 (Real.log (1 + (m.access_count : ℝ)) * 0.04)) := by ring
    _ ≤ (s * ((0.80 + (m.importance : ℝ) * 0.08) *
          (0.5 + 0.5 * Real.exp (-(((now : ℝ) - (m.created_at : ℝ)) / 86400) / 120)))) *
        (1.0 + min 0.15 (Real.log (1 + ((m.access_count + 1 : ℕ) : ℝ)) * 0.04)) :=
      mul_le_mul_of_nonneg_left hF3le hB
    _ = s * ((0.80 + (m.importance : ℝ) * 0.08) *
          (0.5 + 0.5 * Real.exp (-(((now : ℝ) - (m.created_at : ℝ)) / 86400) / 120)) *
          (1.0 + min 0.15 (Real.log (1 + ((m.access_count + 1 : ℕ) : ℝ)) * 0.04))) := by
      ring

/-- The second pass of an immediately repeated search: bumping the access
counts of exactly the previously returned ids rewrites the scored candidate
list as a `map` of the original one that boosts previously taken scores and
fixes everything else, so by `take_sort_set_eq` the sorted-take id set is
unchanged.  `f` abstracts the per-row scoring step of either search path. -/
theorem second_pass_ids (now : ℚ) (threshold : ℝ) (k : ℕ) (M : List Memory)
    (f : Memory → Option SearchResult)
    (hnd : (M.map Memory.id).Nodup)
    (hthr : 0 ≤ threshold)
    (hf_mem : ∀ m r, f m = some r → r.memory = m ∧
        r.score = compute_score now r.similarity m ∧ threshold ≤ r.score)
    (hf_bump : ∀ m r, f m = some r →
        threshold ≤ compute_score now r.similarity (bump_access now m) →
        f (bump_access now m) = some ⟨bump_access now m,
          compute_score now r.similarity (bump_access now m), r.similarity⟩) :
    ∀ i, (i ∈ (((List.insertionSort byScoreDesc
          (M.filterMap fun m =>
            f (if m.id ∈ (((List.insertionSort byScoreDesc (M.filterMap f)).take k).map
                fun r => r.memory.id) then bump_access now m else m))).take k).map
        fun r => r.memory.id)) ↔
      i ∈ (((List.insertionSort byScoreDesc (M.filterMap f)).take k).map
        fun r => r.memory.id) := by
  have hKnd : ((M.filterMap f).map fun r => r.memory.id).Nodup := by
    refine List.Nodup.sublist ?_ hnd
    exact filterMap_search_ids_sublist f (fun m r h => (hf_mem m r h).1) M
  have hrewrite : (M.filterMap fun m =>
      f (if m.id ∈ (((List.insertionSort byScoreDesc (M.filterMap f)).take k).map
          fun r => r.memory.id) then bump_access now m else m)) =
      (M.filterMap f).map (fun r =>
        if r.memory.id ∈ (((List.insertionSort byScoreDesc (M.filterMap f)).take k).map
            fun r => r.memory.id) then
          (⟨bump_access now r.memory,
            compute_score now r.similarity (bump_access now r.memory),
            r.similarity⟩ : SearchResult)
        else r) := by
    rw [List.map_filterMap]
    apply List.filterMap_congr
    intro m hm
    by_cases hmid : m.id ∈ (((List.insertionSort byScoreDesc (M.filterMap f)).take k).map
        fun r => r.memory.id)
    · -- m was returned on the first pass: f m is some result above threshold
      obtain ⟨r0, hr0T, hr0id⟩ := List.mem_map.mp hmid
      have hr0K : r0 ∈ M.filterMap f :=
        (List.perm_insertionSort _ _).mem_iff.mp (List.mem_of_mem_take hr0T)
      obtain ⟨m', hm'M, hfm'⟩ := List.mem_filterMap.mp hr0K
      have hmem' := hf_mem m' r0 hfm'
      have hmm' : m' = m := by
        apply List.inj_on_of_nodup_map hnd hm'M hm
        rw [← hmem'.1, hr0id]
      rw [hmm'] at hfm' hmem'
      have hsc0 : threshold ≤ compute_score now r0.similarity m :=
        hmem'.2.1 ▸ hmem'.2.2
      have hpass : threshold ≤ compute_score now r0.similarity (bump_access now m) :=
        le_trans hsc0 (score_bump_passes now r0.similarity m threshold hthr hsc0)
      rw [if_pos hmid, hf_bump m r0 hfm' hpass, hfm']
      rw [Option.map_some']
      rw [if_pos (show r0.memory.id ∈ _ by rw [hmem'.1]; exact hmid)]
      rw [hmem'.1]
    · rw [if_neg hmid]
      cases hfm : f m with
      | none => rfl
      | some r =>
        rw [Option.map_some']
        rw [if_neg (show ¬ r.memory.id ∈ _ by rw [(hf_mem m r hfm).1]; exact hmid)]
  rw [hrewrite]
  apply take_sort_set_eq k (M.filterMap f) _ hKnd
  · intro r hr
    by_cases h : r.memory.id ∈ (((List.insertionSort byScoreDesc (M.filterMap f)).take
        k).map fun s => s.memory.id)
    · rw [if_pos h]
      rfl
    · rw [if_neg h]
  · intro r hr hrT
    obtain ⟨m, hmM, hfm⟩ := List.mem_filterMap.mp hr
    have hmem := hf_mem m r hfm
    have hsc0 : threshold ≤ compute_score now r.similarity m :=
      hmem.2.1 ▸ hmem.2.2
    rw [if_pos hrT]
    show r.score ≤ compute_score now r.similarity (bump_access now r.memory)
    rw [hmem.2.1, hmem.1]
    exact score_bump_passes now r.similarity m threshold hthr hsc0
  · intro r hr hrT
    rw [if_neg hrT]

/-- Filtering commutes with the per-id access bump whenever the filter
predicate ignores `last_accessed` and `access_count`. -/
theorem map_bump_filter (now : ℚ) (p : Memory → Bool)
    (hp : ∀ m, p (bump_access now m) = p m) (ids : List ℤ) (S : Store) :
    (S.map fun m => if m.id ∈ ids then bump_access now m else m).filter p =
      (S.filter p).map fun m => if m.id ∈ ids then bump_access now m else m := by
  rw [List.filter_map]
  congr 1
  apply List.filter_congr
  intro m hm
  by_cases hid : m.id ∈ ids
  · simp only [Function.comp, if_pos hid]
    exact hp m
  · simp only [Function.comp, if_neg hid]

/-- The vec index rows `(id, distance)` are untouched by the per-id access
bump: neither the id nor the embedding changes. -/
theorem map_bump_entries (now : ℚ) (qv : Vec) (ids : List ℤ) (S : Store) :
    (S.map fun m => if m.id ∈ ids then bump_access now m else m).map
      (fun m => (m.id, vec_cosine_distance qv m.embedding)) =
      S.map fun m => (m.id, vec_cosine_distance qv m.embedding) := by
  rw [List.map_map]
  apply List.map_congr_left
  intro m hm
  by_cases hid : m.id ∈ ids
  · simp only [Function.comp, if_pos hid]
    rfl
  · simp only [Function.comp, if_neg hid]

/-- The `_search_numpy` per-row scorer: shape of a returned result. -/
theorem numpy_f_mem (now : ℚ) (qv : Vec) (threshold : ℝ) :
    ∀ (m : Memory) (r : SearchResult),
      (if threshold ≤ compute_score now (batch_cosine_row qv m.embedding) m then
        some (⟨m, compute_score now (batch_cosine_row qv m.embedding) m,
          batch_cosine_row qv m.embedding⟩ : SearchResult) else none) = some r →
      r.memory = m ∧ r.score = compute_score now r.similarity m ∧ threshold ≤ r.score := by
  intro m r hr
  by_cases hcond : threshold ≤ compute_score now (batch_cosine_row qv m.embedding) m
  · rw [if_pos hcond] at hr
    cases hr
    exact ⟨rfl, rfl, hcond⟩
  · rw [if_neg hcond] at hr
    cases hr

/-- The `_search_numpy` per-row scorer applied to the bumped row: the
similarity is unchanged (same embedding) and the bumped score still clears
the threshold by hypothesis. -/
theorem numpy_f_bump (now : ℚ) (qv : Vec) (threshold : ℝ) :
    ∀ (m : Memory) (r : SearchResult),
      (if threshold ≤ compute_score now (batch_cosine_row qv m.embedding) m then
        some (⟨m, compute_score now (batch_cosine_row qv m.embedding) m,
          batch_cosine_row qv m.embedding⟩ : SearchResult) else none) = some r →
      threshold ≤ compute_score now r.similarity (bump_access now m) →
      (if threshold ≤ compute_score now
          (batch_cosine_row qv (bump_access now m).embedding) (bump_access now m) then
        some (⟨bump_access now m, compute_score now
          (batch_cosine_row qv (bump_access now m).embedding) (bump_access now m),
          batch_cosine_row qv (bump_access now m).embedding⟩ : SearchResult)
      else none) =
      some ⟨bump_access now m, compute_score now r.similarity (bump_access now m),
        r.similarity⟩ := by
  intro m r hr hpass
  by_cases hcond : threshold ≤ compute_score now (batch_cosine_row qv m.embedding) m
  · rw [if_pos hcond] at hr
    cases hr
    have hemb : (bump_access now m).embedding = m.embedding := rfl
    rw [hemb]
    dsimp only at hpass
    rw [if_pos hpass]
  · rw [if_neg hcond] at hr
    cases hr

/-- The importance/type filter of the search core ignores the fields the
access bump changes. -/
theorem filterPred_bump (now : ℚ) (mtype : Option String) (minImp : ℤ) :
    ∀ m : Memory, (decide (minImp ≤ (bump_access now m).importance) &&
        typeMatches mtype (bump_access now m)) =
      (decide (minImp ≤ m.importance) && typeMatches mtype m) := by
  intro m
  cases mtype with
  | none => rfl
  | some t => rfl

/-- The exclusion filter of the search core only looks at the id. -/
theorem exclPred_bump (now : ℚ) (excl : List ℤ) :
    ∀ m : Memory, (!(excl.contains (bump_access now m).id)) = !(excl.contains m.id) :=
  fun _ => rfl

/-- Running the common search core twice in a row (same query, same clock)
returns the same id set: the `_search_numpy` instantiation of the
second-pass argument. -/
theorem core_second_ids (S : Store) (now : ℚ) (qv : Vec) (limit : ℕ)
    (threshold : ℝ) (mtype : Option String) (minImp : ℤ) (excl : List ℤ)
    (hnd : (S.map Memory.id).Nodup) (hthr : 0 ≤ threshold) :
    ∀ i : ℤ,
      (i ∈ ((search_core (search_core S now qv limit threshold mtype minImp excl).2 now
          qv limit threshold mtype minImp excl).1.map fun r => r.memory.id)) ↔
      i ∈ ((search_core S now qv limit threshold mtype minImp excl).1.map
        fun r => r.memory.id) := by
  intro i
  have hframe := search_numpy_frame S now qv limit threshold mtype minImp excl hnd
  rw [search_numpy_eq_core S now qv limit threshold mtype minImp excl] at hframe
  rw [hframe.1]
  simp only [search_core]
  rw [map_bump_filter now _ (filterPred_bump now mtype minImp) _ S,
    map_bump_filter now _ (exclPred_bump now excl) _ _,
    List.filterMap_map]
  have hndM : (((S.filter fun m =>
      decide (minImp ≤ m.importance) && typeMatches mtype m).filter
        fun m => !(excl.contains m.id)).map Memory.id).Nodup :=
    List.Nodup.sublist
      (((List.filter_sublist _).trans (List.filter_sublist _)).map Memory.id) hnd
  exact second_pass_ids now threshold limit _ _ hndM hthr
    (numpy_f_mem now qv threshold) (numpy_f_bump now qv threshold) i

/-- The `_search_vec` per-row scorer (over an arbitrary KNN row list `L`):
shape of a returned result. -/
theorem vec_f_mem (now : ℚ) (threshold : ℝ) (mtype : Option String) (minImp : ℤ)
    (excl : List ℤ) (L : List (ℤ × ℝ)) :
    ∀ (m : Memory) (r : SearchResult),
      (if excl.contains m.id then none
       else if !typeMatches mtype m then none
       else if m.importance < minImp then none
       else if threshold ≤ compute_score now
          (1 - (((L.find? fun e => e.1 == m.id).map Prod.snd).getD 1)) m then
        some (⟨m, compute_score now
          (1 - (((L.find? fun e => e.1 == m.id).map Prod.snd).getD 1)) m,
          1 - (((L.find? fun e => e.1 == m.id).map Prod.snd).getD 1)⟩ : SearchResult)
       else none) = some r →
      r.memory = m ∧ r.score = compute_score now r.similarity m ∧ threshold ≤ r.score := by
  intro m r hr
  by_cases h1 : excl.contains m.id
  · rw [if_pos h1] at hr
    cases hr
  · rw [if_neg h1] at hr
    by_cases h2 : (!typeMatches mtype m) = true
    · rw [if_pos h2] at hr
      cases hr
    · rw [if_neg h2] at hr
      by_cases h3 : m.importance < minImp
      · rw [if_pos h3] at hr
        cases hr
      · rw [if_neg h3] at hr
        by_cases h4 : threshold ≤ compute_score now
            (1 - (((L.find? fun e => e.1 == m.id).map Prod.snd).getD 1)) m
        · rw [if_pos h4] at hr
          cases hr
          exact ⟨rfl, rfl, h4⟩
        · rw [if_neg h4] at hr
          cases hr

/-- The `_search_vec` per-row scorer applied to the bumped row: the id-based
guards and the distance lookup are unchanged, and the bumped score still
clears the threshold by hypothesis. -/
theorem vec_f_bump (now : ℚ) (threshold : ℝ) (mtype : Option String) (minImp : ℤ)
    (excl : List ℤ) (L : List (ℤ × ℝ)) :
    ∀ (m : Memory) (r : SearchResult),
      (if excl.contains m.id then none
       else if !typeMatches mtype m then none
       else if m.importance < minImp then none
       else if threshold ≤ compute_score now
          (1 - (((L.find? fun e => e.1 == m.id).map Prod.snd).getD 1)) m then
        some (⟨m, compute_score now
          (1 - (((L.find? fun e => e.1 == m.id).map Prod.snd).getD 1)) m,
          1 - (((L.find? fun e => e.1 == m.id).map Prod.snd).getD 1)⟩ : SearchResult)
       else none) = some r →
      threshold ≤ compute_score now r.similarity (bump_access now m) →
      (if excl.contains (bump_access now m).id then none
       else if !typeMatches mtype (bump_access now m) then none
       else if (bump_access now m).importance < minImp then none
       else if threshold ≤ compute_score now
          (1 - (((L.find? fun e => e.1 == (bump_access now m).id).map
            Prod.snd).getD 1)) (bump_access now m) then
        some (⟨bump_access now m, compute_score now
          (1 - (((L.find? fun e => e.1 == (bump_access now m).id).map
            Prod.snd).getD 1)) (bump_access now m),
          1 - (((L.find? fun e => e.1 == (bump_access now m).id).map
            Prod.snd).getD 1)⟩ : SearchResult)
       else none) =
      some ⟨bump_access now m, compute_score now r.similarity (bump_access now m),
        r.similarity⟩ := by
  intro m r hr hpass
  have hbid : (bump_access now m).id = m.id := rfl
  have hbimp : (bump_access now m).importance = m.importance := rfl
  have hbtype : typeMatches mtype (bump_access now m) = typeMatches mtype m := by
    cases mtype with
    | none => rfl
    | some t => rfl
  rw [hbid, hbimp, hbtype]
  by_cases h1 : excl.contains m.id
  · rw [if_pos h1] at hr
    cases hr
  · rw [if_neg h1] at hr
    rw [if_neg h1]
    by_cases h2 : (!typeMatches mtype m) = true
    · rw [if_pos h2] at hr
      cases hr
    · rw [if_neg h2] at hr
      rw [if_neg h2]
      by_cases h3 : m.importance < minImp
      · rw [if_pos h3] at hr
        cases hr
      · rw [if_neg h3] at hr
        rw [if_neg h3]
        by_cases h4 : threshold ≤ compute_score now
            (1 - (((L.find? fun e => e.1 == m.id).map Prod.snd).getD 1)) m
        · rw [if_pos h4] at hr
          cases hr
          dsimp only at hpass
          rw [if_pos hpass]
        · rw [if_neg h4] at hr
          cases hr

/-- The candidate-id membership filter of the vec path only looks at the id. -/
theorem idPred_bump (now : ℚ) (cand : List ℤ) :
    ∀ m : Memory, (cand.contains (bump_access now m).id) = cand.contains m.id :=
  fun _ => rfl

/-- Running `_search_vec` twice in a row (same query, same clock) returns the
same id set: the KNN rows are untouched by the access bumps (ids and
embeddings are unchanged), so the same candidate window feeds the second
pass. -/
theorem vec_second_ids (S : Store) (now : ℚ) (qv : Vec) (limit : ℕ)
    (threshold : ℝ) (mtype : Option String) (minImp : ℤ) (excl : List ℤ)
    (hnd : (S.map Memory.id).Nodup) (hthr : 0 ≤ threshold) :
    ∀ i : ℤ,
      (i ∈ ((search_vec (search_vec S now qv limit threshold mtype minImp excl).2 now
          qv limit threshold mtype minImp excl).1.map fun r => r.memory.id)) ↔
      i ∈ ((search_vec S now qv limit threshold mtype minImp excl).1.map
        fun r => r.memory.id) := by
  intro i
  have hframe := search_vec_frame S now qv limit threshold mtype minImp excl hnd
  rw [hframe.1]
  simp only [search_vec]
  rw [map_bump_entries]
  by_cases hempty : ((List.insertionSort byDistAsc (S.map fun m =>
      (m.id, vec_cosine_distance qv m.embedding))).take
        (max (limit * 5) 50)).isEmpty = true
  · simp only [if_pos hempty]
  · simp only [if_neg hempty]
    rw [map_bump_filter now _ (idPred_bump now _) _ S, List.filterMap_map]
    have hndM : ((S.filter fun m =>
        ((((List.insertionSort byDistAsc (S.map fun m =>
          (m.id, vec_cosine_distance qv m.embedding))).take
            (max (limit * 5) 50)).map Prod.fst).contains m.id)).map Memory.id).Nodup :=
      List.Nodup.sublist ((List.filter_sublist _).map Memory.id) hnd
    exact second_pass_ids now threshold limit _ _ hndM hthr
      (vec_f_mem now threshold mtype minImp excl _)
      (vec_f_bump now threshold mtype minImp excl _) i

/-- C3 (amended): with a nonnegative similarity threshold (the default is
0.85 and every call site passes one) and distinct row ids, calling
`find_duplicates` twice in a row with identical content against an
otherwise-unchanged store — same embedding, same clock instant — returns the
same candidate id set both times, on either search path.  The first call's
access-count bumps can only raise the scores of exactly the returned
records, which keeps them above the threshold and ahead of the others in
the stable descending sort.  At a negative threshold the property fails
(`C3_counterexample`). -/
theorem C3_find_duplicates_idempotent (use_vec : Bool) (S : Store) (now : ℚ)
    (qv : Vec) (threshold : ℝ)
    (hnd : (S.map Memory.id).Nodup) (hthr : 0 ≤ threshold) :
    ∀ i : ℤ,
      (i ∈ ((find_duplicates use_vec (find_duplicates use_vec S now qv threshold).2
          now qv threshold).1.map fun r => r.memory.id)) ↔
      i ∈ ((find_duplicates use_vec S now qv threshold).1.map fun r => r.memory.id) := by
  cases use_vec with
  | false =>
    intro i
    have hnum := core_second_ids S now qv 3 threshold none 1 [] hnd hthr i
    simpa [find_duplicates, search_op, search_numpy_eq_core] using hnum
  | true =>
    intro i
    have hv := vec_second_ids S now qv 3 threshold none 1 [] hnd hthr i
    simpa [find_duplicates, search_op] using hv

/-- Witness for `C3_find_duplicates_idempotent`: the singleton store, the
default threshold `0.85`, the numpy path. -/
theorem C3_witness :
    (([exMem1].map Memory.id).Nodup ∧ (0 : ℝ) ≤ 0.85) ∧
    ∀ i : ℤ,
      (i ∈ ((find_duplicates false (find_duplicates false [exMem1] 0 exQuery 0.85).2
          0 exQuery 0.85).1.map fun r => r.memory.id)) ↔
      i ∈ ((find_duplicates false [exMem1] 0 exQuery 0.85).1.map fun r => r.memory.id) :=
  ⟨⟨by decide, by norm_num⟩,
    C3_find_duplicates_idempotent false [exMem1] 0 exQuery 0.85 (by decide) (by norm_num)⟩

/-! ## Claim C9: pipeline counter invariants -/

theorem create_path_stats (use_vec : Bool) (emb_doc emb_query : String → Vec)
    (thr : ℝ) (sess : String) (now : ℚ) (S : Store) (stats : PipelineStats)
    (ids : List ℤ) (op : MemoryOp) :
    (create_path use_vec emb_doc emb_query thr sess now (S, stats, ids) op).2.1 =
        { stats with memories_deduped := stats.memories_deduped + 1 } ∨
    (create_path use_vec emb_doc emb_query thr sess now (S, stats, ids) op).2.1 =
        { stats with memories_stored := stats.memories_stored + 1 } := by
  rw [create_path]
  cases hdup : (find_duplicates use_vec S now (emb_query op.content) thr).1.isEmpty
  · left; simp [hdup]
  · right; simp [hdup]

theorem commit_op_stats (use_vec : Bool) (emb_doc emb_query : String → Vec)
    (thr : ℝ) (sess : String) (now : ℚ) (acc : CommitState) (op : MemoryOp) :
    (commit_op use_vec emb_doc emb_query thr sess now acc op).2.1 =
        { acc.2.1 with memories_updated := acc.2.1.memories_updated + 1 } ∨
    (commit_op use_vec emb_doc emb_query thr sess now acc op).2.1 =
        { acc.2.1 with memories_deduped := acc.2.1.memories_deduped + 1 } ∨
    (commit_op use_vec emb_doc emb_query thr sess now acc op).2.1 =
        { acc.2.1 with memories_stored := acc.2.1.memories_stored + 1 } := by
  obtain ⟨S, stats, ids⟩ := acc
  cases htid : op.target_id with
  | none =>
    rcases create_path_stats use_vec emb_doc emb_query thr sess now S stats ids op with h | h
    · exact Or.inr (Or.inl (by simpa [commit_op, htid] using h))
    · exact Or.inr (Or.inr (by simpa [commit_op, htid] using h))
  | some tid =>
    by_cases hop : op.op = "update"
    · cases hget : get_memory S tid with
      | none =>
        rcases create_path_stats use_vec emb_doc emb_query thr sess now S stats ids op with h | h
        · exact Or.inr (Or.inl (by simpa [commit_op, htid, hop, hget] using h))
        · exact Or.inr (Or.inr (by simpa [commit_op, htid, hop, hget] using h))
      | some m => exact Or.inl (by simp [commit_op, htid, hop, hget])
    · rcases create_path_stats use_vec emb_doc emb_query thr sess now S stats ids op with h | h
      · exact Or.inr (Or.inl (by simpa [commit_op, htid, hop] using h))
      · exact Or.inr (Or.inr (by simpa [commit_op, htid, hop] using h))

theorem commit_fold_stats (use_vec : Bool) (emb_doc emb_query : String → Vec)
    (thr : ℝ) (sess : String) (now : ℚ) :
    ∀ (ops : List MemoryOp) (acc : CommitState),
      (ops.foldl (commit_op use_vec emb_doc emb_query thr sess now) acc).2.1.memories_stored +
        (ops.foldl (commit_op use_vec emb_doc emb_query thr sess now) acc).2.1.memories_updated +
        (ops.foldl (commit_op use_vec emb_doc emb_query thr sess now) acc).2.1.memories_deduped =
        acc.2.1.memories_stored + acc.2.1.memories_updated + acc.2.1.memories_deduped +
          ops.length ∧
      (ops.foldl (commit_op use_vec emb_doc emb_query thr sess now) acc).2.1.chunks_processed =
        acc.2.1.chunks_processed ∧
      (ops.foldl (commit_op use_vec emb_doc emb_query thr sess now) acc).2.1.chunks_passed_gate =
        acc.2.1.chunks_passed_gate ∧
      (ops.foldl (commit_op use_vec emb_doc emb_query thr sess now) acc).2.1.memories_extracted =
        acc.2.1.memories_extracted ∧
      acc.2.1.memories_stored ≤
        (ops.foldl (commit_op use_vec emb_doc emb_query thr sess now) acc).2.1.memories_stored ∧
      acc.2.1.memories_updated ≤
        (ops.foldl (commit_op use_vec emb_doc emb_query thr sess now) acc).2.1.memories_updated ∧
      acc.2.1.memories_deduped ≤
        (ops.foldl (commit_op use_vec emb_doc emb_query thr sess now) acc).2.1.memories_deduped := by
  intro ops
  induction ops with
  | nil => intro acc; simp
  | cons op rest ih =>
    intro acc
    simp only [List.foldl_cons, List.length_cons]
    have h := commit_op_stats use_vec emb_doc emb_query thr sess now acc op
    have ihr := ih (commit_op use_vec emb_doc emb_query thr sess now acc op)
    rcases h with h | h | h <;> rw [h] at ihr <;> simp only at ihr <;>
      obtain ⟨i1, i2, i3, i4, i5, i6, i7⟩ := ihr <;>
      refine ⟨by omega, by omega, by omega, by omega, by omega, by omega, by omega⟩

/-- C9: the pipeline counters start consistent, and every (normally
returning) `process_chunk` call preserves
`memories_stored + memories_updated + memories_deduped = memories_extracted`
and `chunks_passed_gate ≤ chunks_processed`, while every counter is
monotonically non-decreasing. -/
theorem C9_pipeline_counters :
    counters_consistent initial_stats ∧
    ∀ (use_vec : Bool) (emb_doc emb_query : String → Vec) (thr : ℝ) (sess : String)
      (now : ℚ) (gate_result : Bool) (items : List ExtractItem) (chunk : String)
      (S : Store) (stats : PipelineStats),
      counters_consistent stats →
      counters_consistent
        (process_chunk use_vec emb_doc emb_query thr sess now gate_result items chunk
          S stats).2.2 ∧
      stats.chunks_processed ≤
        (process_chunk use_vec emb_doc emb_query thr sess now gate_result items chunk
          S stats).2.2.chunks_processed ∧
      stats.chunks_passed_gate ≤
        (process_chunk use_vec emb_doc emb_query thr sess now gate_result items chunk
          S stats).2.2.chunks_passed_gate ∧
      stats.memories_extracted ≤
        (process_chunk use_vec emb_doc emb_query thr sess now gate_result items chunk
          S stats).2.2.memories_extracted ∧
      stats.memories_stored ≤
        (process_chunk use_vec emb_doc emb_query thr sess now gate_result items chunk
          S stats).2.2.memories_stored ∧
      stats.memories_updated ≤
        (process_chunk use_vec emb_doc emb_query thr sess now gate_result items chunk
          S stats).2.2.memories_updated ∧
      stats.memories_deduped ≤
        (process_chunk use_vec emb_doc emb_query thr sess now gate_result items chunk
          S stats).2.2.memories_deduped := by
  constructor
  · exact ⟨rfl, le_refl 0⟩
  · intro use_vec emb_doc emb_query thr sess now gate_result items chunk S stats hinv
    obtain ⟨hsum, hgate⟩ := hinv
    rw [process_chunk]
    cases gate_result with
    | false =>
      simp only [Bool.not_false, if_pos]
      exact ⟨⟨by simpa using hsum, by simp; omega⟩, by simp, by simp, by simp, by simp,
        by simp, by simp⟩
    | true =>
      simp only [Bool.not_true, if_neg (by simp : ¬ (false : Bool) = true)]
      have hf := commit_fold_stats use_vec emb_doc emb_query thr sess now
        (extract_ops items)
        ((search_op use_vec S now (emb_query (chunk.take 500)) 5 0.60 none 1 []).2,
          { stats with
              chunks_processed := stats.chunks_processed + 1,
              chunks_passed_gate := stats.chunks_passed_gate + 1,
              memories_extracted := stats.memories_extracted +
                (extract_ops items).length },
          [])
      obtain ⟨f1, f2, f3, f4, f5, f6, f7⟩ := hf
      simp only at f1 f2 f3 f4 f5 f6 f7
      refine ⟨⟨by omega, by omega⟩, by omega, by omega, by omega, by omega, by omega,
        by omega⟩

/-- Witness for `C9_pipeline_counters`: one gated-out chunk starting from the
fresh counters. -/
theorem C9_witness :
    counters_consistent
      (process_chunk false (fun _ => []) (fun _ => []) 0.85 "" 0 false [] "hi"
        [] initial_stats).2.2 := by
  exact (C9_pipeline_counters.2 false (fun _ => []) (fun _ => []) 0.85 "" 0 false [] "hi"
    [] initial_stats C9_pipeline_counters.1).1

end MemoryAgent
